import Mathlib

/-!
# homeproxy / cmd/envoysds: a shallow embedding of the secret discovery service

The development follows `src/cmd/envoysds/main.go`.

* Go byte slices are lists of natural numbers (each below 256). Pointers and `big.Int`
  values are taken to be non-nil.
* A Go result pair `(value, error)` is an `Except`; where the call can also panic it is an
  `Outcome`, whose third case stands for a call that does not return.
* Everything outside the process (the certificate delegate reached through the
  autocertdelegate client, the wall clock, the gRPC stream) is an oracle over an arbitrary
  state type `W`; each call to one of them is recorded in a trace, most recent call first.
* Library functions the program calls but does not define (the serialisations inside
  `x509.MarshalPKCS1PrivateKey` and `x509.MarshalECPrivateKey`, `proto.Marshal`) are fields
  of the environment.  `pem.Encode`, the curve check of `x509.MarshalECPrivateKey` and the
  access to the first two primes in `x509.MarshalPKCS1PrivateKey` are written out after the
  Go standard library.
* Calls to `log` and `fmt.Println` have no effect on control flow or state and are left out.
* `recvIteration` and `workerIteration` are one iteration of the receive loop and of the
  refresh worker run from start to end.  `step` and `run` are the stream with its two
  goroutines interleaved: a step is one receive, one access to the shared variable
  `version`, one call of the clock, the delegate or the stream, by either goroutine, in any
  order.  Each access to a shared variable is taken as atomic.
-/

set_option linter.dupNamespace false

namespace Homeproxy

/-! ## Data model -/

/-- Go `[]byte`. -/
abbrev Bytes := List Nat

/-- The elliptic curves `x509.oidFromNamedCurve` knows, and any other curve. -/
inductive Curve where
  | P224
  | P256
  | P384
  | P521
  | other (name : String)
  deriving DecidableEq, Repr

/-- Go `ecdsa.PrivateKey`. -/
structure ECDSAPrivateKey where
  Curve : Curve
  X : Nat
  Y : Nat
  D : Nat
  deriving DecidableEq, Repr

/-- Go `rsa.PrivateKey`. -/
structure RSAPrivateKey where
  N : Nat
  E : Nat
  D : Nat
  Primes : List Nat
  deriving DecidableEq, Repr

/-- Go `crypto.PrivateKey` (an empty interface) as seen by the type switch of
`getPrivateCert`: a `*ecdsa.PrivateKey`, a `*rsa.PrivateKey`, a value of any other dynamic
type, or the nil interface. -/
inductive PrivateKey where
  | ecdsa (key : ECDSAPrivateKey)
  | rsa (key : RSAPrivateKey)
  | other (typeName : String) (raw : Bytes)
  | absent
  deriving DecidableEq, Repr

/-- What a Go call comes to: a value, an error, or a panic, after which the call does not
return. -/
inductive Outcome (ε α : Type) where
  | ok (a : α)
  | error (e : ε)
  | panic

/-- Go `tls.Certificate`: the DER chain, leaf first, and the private key. -/
structure Certificate where
  Certificate : List Bytes
  PrivateKey : PrivateKey
  deriving DecidableEq, Repr

/-- Go `tls.ClientHelloInfo`, the fields the program sets. -/
structure ClientHelloInfo where
  ServerName : String
  CipherSuites : List Nat
  SupportedProtos : List String
  deriving DecidableEq, Repr

/-- Go `pem.Block`; `Headers` is a map, held as an association list. -/
structure PemBlock where
  Type_ : String
  Headers : List (String × String)
  Bytes : Bytes
  deriving DecidableEq, Repr

/-- Envoy `auth.TlsCertificate` with both data sources given as inline bytes. -/
structure TlsCertificate where
  CertificateChain : Bytes
  PrivateKey : Bytes
  deriving DecidableEq, Repr

/-- Envoy `auth.Secret` of the `Secret_TlsCertificate` kind. -/
structure Secret where
  Name : String
  TlsCertificate : TlsCertificate
  deriving DecidableEq, Repr

/-- Protobuf `any.Any`. -/
structure Any where
  TypeUrl : String
  Value : Bytes
  deriving DecidableEq, Repr

/-- The gRPC status codes the program uses. -/
inductive Code where
  | Internal
  | Unimplemented
  deriving DecidableEq, Repr

/-- A gRPC status error, as built by `status.Errorf`. -/
structure Status where
  code : Code
  message : String
  deriving DecidableEq, Repr

/-- Envoy `api.DiscoveryRequest`, the fields a client can set that the program could read. -/
structure DiscoveryRequest where
  VersionInfo : String
  ResourceNames : List String
  TypeUrl : String
  ResponseNonce : String
  ErrorDetail : Option String
  deriving DecidableEq, Repr

/-- Envoy `api.DiscoveryResponse`, the fields the program sets. -/
structure DiscoveryResponse where
  VersionInfo : String
  Resources : List Any
  TypeUrl : String
  deriving DecidableEq, Repr

/-- The constant `secretTypeURL`. -/
def secretTypeURL : String := "type.googleapis.com/envoy.api.v2.auth.Secret"

/-- Go `EnvoySDS`; the refresh period is in nanoseconds. -/
structure EnvoySDS where
  delegator : String
  certRefresh : Nat
  deriving DecidableEq, Repr

/-- The function `New`. -/
def New (delegator : String) (certRefresh : Nat) : EnvoySDS :=
  { delegator := delegator, certRefresh := certRefresh }

/-! ## Environment and trace -/

/-- One call that leaves the process. -/
inductive Event where
  | now (formatted : String)
  | getCertificate (delegator : String) (hello : ClientHelloInfo)
  | send (resp : DiscoveryResponse) (err : Option String)
  deriving DecidableEq, Repr

/-- What the program is run against. `getCertificate` is
`autocertdelegate.NewClient(delegator).GetCertificate(hello)`, `now` is
`time.Now().UTC().Format(time.RFC3339)`, `send` is `stream.Send` (`none` for a nil error);
`marshalPKCS1PrivateKeyDER` is what `x509.MarshalPKCS1PrivateKey` does on a key with at
least two primes (`Precompute` and the ASN.1 serialisation), `none` when it panics;
`marshalECPrivateKeyWithOID` is the function of that name in crypto/x509; `protoMarshal` is
`proto.Marshal` on a secret. -/
structure Env (W : Type) where
  getCertificate : String → ClientHelloInfo → W → Except String Certificate × W
  now : W → String × W
  send : DiscoveryResponse → W → Option String × W
  marshalPKCS1PrivateKeyDER : RSAPrivateKey → Option Bytes
  marshalECPrivateKeyWithOID : ECDSAPrivateKey → List Nat → Outcome String Bytes
  protoMarshal : Secret → Except String Bytes

/-- The outside state together with the calls made so far, most recent first. -/
structure World (W : Type) where
  ext : W
  trace : List Event

/-! ## encoding/pem and encoding/base64 (Go standard library) -/

/-- The UTF-8 bytes of a character. -/
def utf8Char (c : Char) : Bytes :=
  let n := c.toNat
  if n < 128 then [n]
  else if n < 2048 then [192 + n / 64, 128 + n % 64]
  else if n < 65536 then [224 + n / 4096, 128 + n / 64 % 64, 128 + n % 64]
  else [240 + n / 262144, 128 + n / 4096 % 64, 128 + n / 64 % 64, 128 + n % 64]

/-- Go `[]byte(s)`. -/
def strBytes (s : String) : Bytes :=
  s.toList.flatMap utf8Char

/-- The alphabet of `base64.StdEncoding`. -/
def encodeStd : List Char :=
  "ABCDEFGHIJKLMNOPQRSTUVWXYZabcdefghijklmnopqrstuvwxyz0123456789+/".toList

/-- The alphabet letter of the low six bits of `val`. -/
def b64 (val : Nat) : Nat :=
  (encodeStd.getD (val % 64) 'A').toNat

/-- The function `base64.StdEncoding.Encode`, with `=` (61) padding. -/
def base64Encode : Bytes → Bytes
  | a :: b :: c :: rest =>
    let val := a * 65536 + b * 256 + c
    b64 (val / 262144) :: b64 (val / 4096) :: b64 (val / 64) :: b64 val :: base64Encode rest
  | [a, b] =>
    let val := a * 65536 + b * 256
    [b64 (val / 262144), b64 (val / 4096), b64 (val / 64), 61]
  | [a] =>
    let val := a * 65536
    [b64 (val / 262144), b64 (val / 4096), 61, 61]
  | [] => []

/-- The constant `pemLineLength`. -/
def pemLineLength : Nat := 64

/-- The `lineBreaker` of encoding/pem: a newline (10) after every 64 bytes written, and on
close after a last shorter line. `used` is the length of the line being filled. -/
def lineBreaker : Nat → Bytes → Bytes
  | used, [] => if used > 0 then [10] else []
  | used, b :: rest =>
    if used + 1 < pemLineLength then b :: lineBreaker (used + 1) rest
    else b :: 10 :: lineBreaker 0 rest

/-- The function `writeHeader` of encoding/pem. -/
def writeHeader (k v : String) : Bytes :=
  strBytes (k ++ ": " ++ v ++ "\n")

/-- The header section `pem.Encode` writes: nothing without headers, else `Proc-Type` first,
the other keys sorted, and an empty line. -/
def pemHeaders (headers : List (String × String)) : Bytes :=
  if headers.isEmpty then []
  else
    let proc := headers.filter (fun kv => kv.1 == "Proc-Type")
    let h := (headers.filter (fun kv => kv.1 != "Proc-Type")).mergeSort (fun a b => a.1 ≤ b.1)
    (proc.take 1).flatMap (fun kv => writeHeader kv.1 kv.2)
      ++ h.flatMap (fun kv => writeHeader kv.1 kv.2) ++ [10]

/-- The bytes `pem.Encode` writes for a block it accepts. -/
def pemText (b : PemBlock) : Bytes :=
  strBytes "-----BEGIN " ++ strBytes (b.Type_ ++ "-----\n") ++ pemHeaders b.Headers
    ++ lineBreaker 0 (base64Encode b.Bytes)
    ++ strBytes "-----END " ++ strBytes (b.Type_ ++ "-----\n")

/-- The function `pem.Encode` writing to a `bytes.Buffer` holding `buf`: a header key with a
colon is refused before anything is written; writes to the buffer do not fail. -/
def pemEncode (buf : Bytes) (b : PemBlock) : Except String Bytes :=
  if b.Headers.any (fun kv => kv.1.contains ':') then
    .error "pem: cannot encode a header key that contains a colon"
  else .ok (buf ++ pemText b)

/-! ## crypto/x509 (Go standard library) -/

/-- The function `oidFromNamedCurve` of crypto/x509. -/
def oidFromNamedCurve : Curve → Option (List Nat)
  | .P224 => some [1, 3, 132, 0, 33]
  | .P256 => some [1, 2, 840, 10045, 3, 1, 7]
  | .P384 => some [1, 3, 132, 0, 34]
  | .P521 => some [1, 3, 132, 0, 35]
  | .other _ => none

/-- The function `x509.MarshalECPrivateKey`: a curve without a registered object identifier
is refused, otherwise the key is serialised with that identifier. -/
def marshalECPrivateKey {W : Type} (env : Env W) (key : ECDSAPrivateKey) :
    Outcome String Bytes :=
  match oidFromNamedCurve key.Curve with
  | none => .error "x509: unknown elliptic curve"
  | some oid => env.marshalECPrivateKeyWithOID key oid

/-- The function `x509.MarshalPKCS1PrivateKey`, which returns bytes and no error: it reads
`key.Primes[0]` and `key.Primes[1]` and so panics on a key with fewer than two primes;
`none` is a panic. -/
def marshalPKCS1PrivateKey {W : Type} (env : Env W) (key : RSAPrivateKey) : Option Bytes :=
  if key.Primes.length < 2 then none else env.marshalPKCS1PrivateKeyDER key

/-! ## Certificate codec -/

/-- The loop of `getPublicCert`; `buf` is the content of the buffer. -/
def getPublicCertLoop : List Bytes → Bytes → Except String Bytes
  | [], buf => .ok buf
  | b :: rest, buf =>
    match pemEncode buf { Type_ := "CERTIFICATE", Headers := [], Bytes := b } with
    | .error err => .error err
    | .ok buf1 => getPublicCertLoop rest buf1

/-- The function `getPublicCert`. -/
def getPublicCert (cert : Certificate) : Except String Bytes :=
  getPublicCertLoop cert.Certificate []

/-- The function `encodeECDSAKey`, writing to a buffer holding `w`. -/
def encodeECDSAKey {W : Type} (env : Env W) (w : Bytes) (key : ECDSAPrivateKey) :
    Outcome String Bytes :=
  match marshalECPrivateKey env key with
  | .panic => .panic
  | .error err => .error err
  | .ok b =>
    match pemEncode w { Type_ := "EC PRIVATE KEY", Headers := [], Bytes := b } with
    | .error err => .error err
    | .ok w1 => .ok w1

/-- The function `getPrivateCert`. -/
def getPrivateCert {W : Type} (env : Env W) (cert : Certificate) : Outcome String Bytes :=
  let buf : Bytes := []
  match cert.PrivateKey with
  | .ecdsa key =>
    match encodeECDSAKey env buf key with
    | .panic => .panic
    | .error err => .error err
    | .ok buf1 => .ok buf1
  | .rsa key =>
    match marshalPKCS1PrivateKey env key with
    | none => .panic
    | some b =>
      match pemEncode buf { Type_ := "RSA PRIVATE KEY", Headers := [], Bytes := b } with
      | .error err => .error err
      | .ok buf1 => .ok buf1
  | _ => .error "cmd/envoysds: unknown private key type"

/-! ## Effects -/

/-- The method `newVersion`: the formatted current time. -/
def newVersion {W : Type} (env : Env W) (w : World W) : String × World W :=
  let r := env.now w.ext
  (r.1, { ext := r.2, trace := .now r.1 :: w.trace })

/-- The call `autocertdelegate.NewClient(delegator).GetCertificate(hello)`. -/
def clientGetCertificate {W : Type} (env : Env W) (delegator : String)
    (hello : ClientHelloInfo) (w : World W) : Except String Certificate × World W :=
  let r := env.getCertificate delegator hello w.ext
  (r.1, { ext := r.2, trace := .getCertificate delegator hello :: w.trace })

/-- The call `stream.Send(resp)`. -/
def streamSend {W : Type} (env : Env W) (resp : DiscoveryResponse) (w : World W) :
    Option String × World W :=
  let r := env.send resp w.ext
  (r.1, { ext := r.2, trace := .send resp r.1 :: w.trace })

/-! ## Secret builder -/

/-- The constant `acme.ALPNProto`. -/
def acmeALPNProto : String := "acme-tls/1"

/-- The `tls.ClientHelloInfo` that `GetTLSCertificate` builds for `name`; the cipher suites
are `tls.TLS_AES_128_GCM_SHA256` and `tls.TLS_ECDHE_ECDSA_WITH_AES_128_GCM_SHA256`. -/
def helloFor (name : String) : ClientHelloInfo :=
  { ServerName := name
    CipherSuites := [0x1301, 0xc02b]
    SupportedProtos := ["h2", "http/1.1", acmeALPNProto] }

/-- The method `GetTLSCertificate`. -/
def GetTLSCertificate {W : Type} (env : Env W) (s : EnvoySDS) (name : String)
    (w : World W) : Outcome String TlsCertificate × World W :=
  match clientGetCertificate env s.delegator (helloFor name) w with
  | (.error err, w1) => (.error err, w1)
  | (.ok tls, w1) =>
    match getPublicCert tls with
    | .error err => (.error err, w1)
    | .ok pubcert =>
      match getPrivateCert env tls with
      | .panic => (.panic, w1)
      | .error err => (.error err, w1)
      | .ok privcert => (.ok { CertificateChain := pubcert, PrivateKey := privcert }, w1)

/-- The loop of `makeSecret`; `resources` is the slice built so far. -/
def makeSecretLoop {W : Type} (env : Env W) (s : EnvoySDS) :
    List String → List Any → World W → Outcome Status (List Any) × World W
  | [], resources, w => (.ok resources, w)
  | rs :: rest, resources, w =>
    match GetTLSCertificate env s rs w with
    | (.panic, w1) => (.panic, w1)
    | (.error err, w1) =>
      (.error { code := .Internal, message := "failed to read TLS certificate (" ++ err ++ ")" },
        w1)
    | (.ok tlsCertificate, w1) =>
      let secret : Secret := { Name := rs, TlsCertificate := tlsCertificate }
      match env.protoMarshal secret with
      | .error err =>
        let errMessage := "Generates invalid secret (" ++ err ++ ")"
        (.error { code := .Internal, message := errMessage }, w1)
      | .ok data =>
        makeSecretLoop env s rest (resources ++ [{ TypeUrl := secretTypeURL, Value := data }]) w1

/-- The method `makeSecret`. -/
def makeSecret {W : Type} (env : Env W) (s : EnvoySDS) (names : List String)
    (version : String) (w : World W) : Outcome Status DiscoveryResponse × World W :=
  match makeSecretLoop env s names [] w with
  | (.panic, w1) => (.panic, w1)
  | (.error err, w1) => (.error err, w1)
  | (.ok resources, w1) =>
    (.ok { Resources := resources, TypeUrl := secretTypeURL, VersionInfo := version }, w1)

/-- The method `FetchSecrets`. -/
def FetchSecrets {W : Type} (env : Env W) (s : EnvoySDS) (request : DiscoveryRequest)
    (w : World W) : Outcome Status DiscoveryResponse × World W :=
  let v := newVersion env w
  makeSecret env s request.ResourceNames v.1 v.2

/-- The method `DeltaSecrets`. -/
def DeltaSecrets : Status :=
  { code := .Unimplemented, message := "DeltaSecrets not implemented." }

/-! ## Stream session: one iteration -/

/-- The variables `names` and `version` of `StreamSecrets`. -/
structure Session where
  names : List String
  version : String
  deriving DecidableEq, Repr

/-- The values of `names` and `version` when `StreamSecrets` starts. -/
def Session.init : Session := { names := [], version := "" }

/-- How an iteration of the receive loop ends: with the next iteration, with
`StreamSecrets` returning an error, or in a panic. -/
inductive Control where
  | next
  | ret (err : String)
  | panic
  deriving DecidableEq, Repr

/-- How an iteration of the refresh worker ends: with the next iteration, with the worker
returning, or in a panic. -/
inductive WorkerControl where
  | next
  | exit
  | panic
  deriving DecidableEq, Repr

/-- One iteration of the receive loop of `StreamSecrets`, run from start to end; `rcv` is
what `stream.Recv()` returned. -/
def recvIteration {W : Type} (env : Env W) (s : EnvoySDS)
    (rcv : Except String DiscoveryRequest) (ss : Session) (w : World W) :
    Control × Session × World W :=
  match rcv with
  | .error err => (.ret err, ss, w)
  | .ok r =>
    if r.ErrorDetail.isSome then (.next, ss, w)
    else
      let ss1 : Session := { ss with names := r.ResourceNames }
      if r.VersionInfo ≠ "" ∧ r.VersionInfo = ss1.version then (.next, ss1, w)
      else
        let v := newVersion env w
        let ss2 : Session := { ss1 with version := v.1 }
        match makeSecret env s ss2.names ss2.version v.2 with
        | (.panic, w2) => (.panic, ss2, w2)
        | (.error _, w2) => (.next, ss2, w2)
        | (.ok secret, w2) =>
          match streamSend env secret w2 with
          | (some err, w3) => (.ret err, ss2, w3)
          | (none, w3) => (.next, ss2, w3)

/-- One iteration of the refresh worker of `StreamSecrets`, run from start to end, on a
value `names` received from the `reset` channel. -/
def workerIteration {W : Type} (env : Env W) (s : EnvoySDS) (names : List String)
    (ss : Session) (w : World W) : WorkerControl × Session × World W :=
  let v := newVersion env w
  let ss1 : Session := { ss with version := v.1 }
  match makeSecret env s names ss1.version v.2 with
  | (.panic, w2) => (.panic, ss1, w2)
  | (.error _, w2) => (.exit, ss1, w2)
  | (.ok secret, w2) =>
    match streamSend env secret w2 with
    | (some _, w3) => (.exit, ss1, w3)
    | (none, w3) => (.next, ss1, w3)

/-! ## Stream session: the two goroutines interleaved -/

/-- Where a goroutine stands in the statements the receive loop (main.go:303-309) and the
refresh worker (main.go:257-263) share: before the call of `newVersion`; before the
assignment of its result `v` to `version`; before the arguments of `makeSecret` are read;
inside the loop of `makeSecret`, called with `version`, with the names `rest` still to
process and the slice `resources` built; before `stream.Send(secret)`. -/
inductive Task where
  | alloc
  | store (v : String)
  | load
  | build (version : String) (rest : List String) (resources : List Any)
  | send (secret : DiscoveryResponse)
  deriving DecidableEq, Repr

/-- What one step of a task leads to: another point of the task, the error return of
`makeSecret`, the return of `stream.Send`, or a panic. -/
inductive TaskNext where
  | goto (t : Task)
  | failed
  | sent (err : Option String)
  | panic
  deriving DecidableEq, Repr

/-- The body of the loop of `makeSecret` for the name `rs`. -/
def makeSecretBody {W : Type} (env : Env W) (s : EnvoySDS) (rs : String)
    (resources : List Any) (w : World W) : Outcome Status (List Any) × World W :=
  match GetTLSCertificate env s rs w with
  | (.panic, w1) => (.panic, w1)
  | (.error err, w1) =>
    (.error { code := .Internal, message := "failed to read TLS certificate (" ++ err ++ ")" },
      w1)
  | (.ok tlsCertificate, w1) =>
    let secret : Secret := { Name := rs, TlsCertificate := tlsCertificate }
    match env.protoMarshal secret with
    | .error err =>
      let errMessage := "Generates invalid secret (" ++ err ++ ")"
      (.error { code := .Internal, message := errMessage }, w1)
    | .ok data => (.ok (resources ++ [{ TypeUrl := secretTypeURL, Value := data }]), w1)

/-- One step of a task. `names` is the name list the goroutine passes to `makeSecret` and
`version` the value of the shared variable; the result carries the value of the shared
variable after the step. -/
def taskStep {W : Type} (env : Env W) (s : EnvoySDS) (names : List String)
    (version : String) : Task → World W → TaskNext × String × World W
  | .alloc, w =>
    let v := newVersion env w
    (.goto (.store v.1), version, v.2)
  | .store v, w => (.goto .load, v, w)
  | .load, w => (.goto (.build version names []), version, w)
  | .build v [] resources, w =>
    (.goto (.send { Resources := resources, TypeUrl := secretTypeURL, VersionInfo := v }),
      version, w)
  | .build v (rs :: rest) resources, w =>
    match makeSecretBody env s rs resources w with
    | (.panic, w1) => (.panic, version, w1)
    | (.error _, w1) => (.failed, version, w1)
    | (.ok resources1, w1) => (.goto (.build v rest resources1), version, w1)
  | .send secret, w =>
    let r := streamSend env secret w
    (.sent r.1, version, r.2)

/-- Where the receive loop stands: in `stream.Recv()`; before the comparison of the
request's version with `version` (main.go:297); in the shared statements; or returned. -/
inductive LoopPc where
  | recv
  | compare (versionInfo : String)
  | task (t : Task)
  | returned (err : String)
  deriving DecidableEq, Repr

/-- Where the refresh worker stands: in its `select`; in the shared statements, with the
name list it received; or returned. -/
inductive WorkerPc where
  | select
  | task (names : List String) (t : Task)
  | exited
  deriving DecidableEq, Repr

/-- One open stream: the shared variables, where the two goroutines stand, and whether a
panic has ended the process. -/
structure Stream where
  session : Session
  loop : LoopPc
  worker : WorkerPc
  crashed : Bool
  deriving DecidableEq, Repr

/-- The stream when `StreamSecrets` starts. -/
def Stream.init : Stream :=
  { session := Session.init, loop := .recv, worker := .select, crashed := false }

/-- What can happen next on an open stream: `stream.Recv()` returns in the receive loop, the
receive loop takes a step, the worker receives a name list from the `reset` channel, the
worker takes a step, or the worker finds the stream context done. -/
inductive Input where
  | recv (rcv : Except String DiscoveryRequest)
  | loop
  | reset (names : List String)
  | worker
  | done

/-- The stream after one input. An input that does not apply where the goroutine stands
changes nothing, and nothing happens after a panic. -/
def step {W : Type} (env : Env W) (s : EnvoySDS) (st : Stream × World W) :
    Input → Stream × World W
  | .recv rcv =>
    if st.1.crashed then st
    else
      match st.1.loop with
      | .recv =>
        match rcv with
        | .error err => ({ st.1 with loop := .returned err }, st.2)
        | .ok r =>
          if r.ErrorDetail.isSome then st
          else
            ({ st.1 with session := { st.1.session with names := r.ResourceNames }
                         loop := .compare r.VersionInfo }, st.2)
      | _ => st
  | .loop =>
    if st.1.crashed then st
    else
      match st.1.loop with
      | .compare versionInfo =>
        if versionInfo ≠ "" ∧ versionInfo = st.1.session.version then
          ({ st.1 with loop := .recv }, st.2)
        else ({ st.1 with loop := .task .alloc }, st.2)
      | .task t =>
        match taskStep env s st.1.session.names st.1.session.version t st.2 with
        | (.goto t1, v, w) =>
          ({ st.1 with session := { st.1.session with version := v }, loop := .task t1 }, w)
        | (.failed, v, w) =>
          ({ st.1 with session := { st.1.session with version := v }, loop := .recv }, w)
        | (.sent none, v, w) =>
          ({ st.1 with session := { st.1.session with version := v }, loop := .recv }, w)
        | (.sent (some err), v, w) =>
          ({ st.1 with session := { st.1.session with version := v }
                       loop := .returned err }, w)
        | (.panic, v, w) =>
          ({ st.1 with session := { st.1.session with version := v }, crashed := true }, w)
      | _ => st
  | .reset names =>
    if st.1.crashed then st
    else
      match st.1.worker with
      | .select => ({ st.1 with worker := .task names .alloc }, st.2)
      | _ => st
  | .worker =>
    if st.1.crashed then st
    else
      match st.1.worker with
      | .task names t =>
        match taskStep env s names st.1.session.version t st.2 with
        | (.goto t1, v, w) =>
          ({ st.1 with session := { st.1.session with version := v }
                       worker := .task names t1 }, w)
        | (.failed, v, w) =>
          ({ st.1 with session := { st.1.session with version := v }, worker := .exited }, w)
        | (.sent none, v, w) =>
          ({ st.1 with session := { st.1.session with version := v }, worker := .select }, w)
        | (.sent (some _), v, w) =>
          ({ st.1 with session := { st.1.session with version := v }, worker := .exited }, w)
        | (.panic, v, w) =>
          ({ st.1 with session := { st.1.session with version := v }, crashed := true }, w)
      | _ => st
  | .done =>
    if st.1.crashed then st
    else
      match st.1.worker with
      | .select => ({ st.1 with worker := .exited }, st.2)
      | _ => st

/-- The stream after a sequence of inputs. -/
def run {W : Type} (env : Env W) (s : EnvoySDS) (st : Stream × World W)
    (inputs : List Input) : Stream × World W :=
  inputs.foldl (step env s) st

/-- Whether the receive loop is inside an iteration. -/
def LoopPc.busy : LoopPc → Bool
  | .compare _ => true
  | .task _ => true
  | _ => false

/-- Whether the refresh worker is inside an iteration. -/
def WorkerPc.busy : WorkerPc → Bool
  | .task _ _ => true
  | _ => false

/-- At most one of the two goroutines is inside an iteration. -/
def Stream.exclusive (st : Stream) : Bool :=
  !(st.loop.busy && st.worker.busy)

/-- No iteration of one goroutine begins while an iteration of the other is under way, along
the whole sequence of inputs. -/
def nonOverlapping {W : Type} (env : Env W) (s : EnvoySDS) :
    Stream × World W → List Input → Bool
  | st, [] => st.1.exclusive
  | st, i :: rest => st.1.exclusive && nonOverlapping env s (step env s st i) rest

/-! ## Reading a trace -/

/-- The `VersionInfo` of the most recent response whose `Send` returned no error, or the
empty string. -/
def lastSentVersion : List Event → String
  | [] => ""
  | .send resp none :: _ => resp.VersionInfo
  | _ :: rest => lastSentVersion rest

/-- The most recent result of `newVersion`, or the empty string. -/
def lastAllocated : List Event → String
  | [] => ""
  | .now v :: _ => v
  | _ :: rest => lastAllocated rest

/-- Whether the most recent result of `newVersion` has not been followed by a `Send` that
returned no error. -/
def unsentVersion : List Event → Bool
  | [] => false
  | .now _ :: _ => true
  | .send _ none :: _ => false
  | _ :: rest => unsentVersion rest

/-- The responses handed to `stream.Send`, most recent first. -/
def sendCalls : List Event → List DiscoveryResponse
  | [] => []
  | .send resp _ :: rest => resp :: sendCalls rest
  | _ :: rest => sendCalls rest

/-- The server names asked of the delegate, most recent first. -/
def delegateCalls : List Event → List String
  | [] => []
  | .getCertificate _ hello :: rest => hello.ServerName :: delegateCalls rest
  | _ :: rest => delegateCalls rest

/-- The block `getPublicCert` encodes for one chain entry. -/
def certBlock (der : Bytes) : PemBlock :=
  { Type_ := "CERTIFICATE", Headers := [], Bytes := der }

/-- The error of the default case of `getPrivateCert`. -/
def unknownKeyType : String := "cmd/envoysds: unknown private key type"

/-- Whether the type switch of `getPrivateCert` takes its default case. -/
def PrivateKey.unknown : PrivateKey → Bool
  | .ecdsa _ => false
  | .rsa _ => false
  | _ => true

/-- The body of the loop of `makeSecret` fails for `name` in the world `w`: either
`GetTLSCertificate` or `proto.Marshal` returns an error. -/
def bodyFails {W : Type} (env : Env W) (s : EnvoySDS) (name : String) (w : World W) : Prop :=
  (∃ err, (GetTLSCertificate env s name w).1 = .error err)
  ∨ ∃ tls err, (GetTLSCertificate env s name w).1 = .ok tls
      ∧ env.protoMarshal { Name := name, TlsCertificate := tls } = .error err

/-- The resource `res` is the marshalled secret named `name` around a certificate that
`GetTLSCertificate` returned for `name`. -/
def builtFrom {W : Type} (env : Env W) (s : EnvoySDS) (name : String) (res : Any) : Prop :=
  ∃ tls data, (∃ w, (GetTLSCertificate env s name w).1 = .ok tls)
    ∧ env.protoMarshal { Name := name, TlsCertificate := tls } = .ok data
    ∧ res = { TypeUrl := secretTypeURL, Value := data }

/-- The trace entry of a delegate call for `name`. -/
def callFor (s : EnvoySDS) (name : String) : Event :=
  .getCertificate s.delegator (helloFor name)

/-! ### What holds of `version` under every interleaving -/

/-- What a goroutine at the point `t` knows of the version it carries: it is a result of
`newVersion`. -/
def Task.allocated (version : String) (trace : List Event) : Task → Prop
  | .alloc => True
  | .store v => .now v ∈ trace
  | .load => .now version ∈ trace
  | .build v _ _ => .now v ∈ trace
  | .send secret => .now secret.VersionInfo ∈ trace

/-- The versions in use are results of `newVersion`: the shared variable unless it is still
empty, the version of every response handed to `stream.Send`, and the version either
goroutine carries. -/
def Stream.allocated {W : Type} (st : Stream × World W) : Prop :=
  (st.1.session.version = "" ∨ .now st.1.session.version ∈ st.2.trace)
  ∧ (∀ resp o, .send resp o ∈ st.2.trace → .now resp.VersionInfo ∈ st.2.trace)
  ∧ (∀ t, st.1.loop = .task t → t.allocated st.1.session.version st.2.trace)
  ∧ (∀ names t, st.1.worker = .task names t → t.allocated st.1.session.version st.2.trace)

/-! ### What holds of `version` when iterations do not overlap -/

/-- Between iterations: the shared variable holds the most recent result of `newVersion`,
which is the version of the last response sent unless it is still unsent. -/
def settled (version : String) (trace : List Event) : Prop :=
  version = lastAllocated trace
  ∧ (unsentVersion trace = false → version = lastSentVersion trace)

/-- What holds at the point `t` of the only iteration under way. -/
def Task.inStep (version : String) (trace : List Event) : Task → Prop
  | .alloc => settled version trace
  | .store v => lastAllocated trace = v ∧ unsentVersion trace = true
  | .load => version = lastAllocated trace ∧ unsentVersion trace = true
  | .build v _ _ =>
    v = version ∧ version = lastAllocated trace ∧ unsentVersion trace = true
  | .send secret =>
    secret.VersionInfo = version ∧ version = lastAllocated trace
      ∧ unsentVersion trace = true

/-- What holds where the receive loop stands when the worker is not inside an iteration. -/
def LoopPc.inv (version : String) (trace : List Event) : LoopPc → Prop
  | .task t => t.inStep version trace
  | _ => settled version trace

/-- What holds where the worker stands when the receive loop is not inside an iteration. -/
def WorkerPc.inv (version : String) (trace : List Event) : WorkerPc → Prop
  | .task _ t => t.inStep version trace
  | _ => settled version trace

/-- The relation between `version` and the trace that steps keep as long as iterations do
not overlap. -/
def Stream.sequential {W : Type} (st : Stream × World W) : Prop :=
  (st.1.worker.busy = false → st.1.loop.inv st.1.session.version st.2.trace)
  ∧ (st.1.loop.busy = false → st.1.worker.inv st.1.session.version st.2.trace)

/-! ## Concrete environments for evaluation -/

/-- A delegate that refuses every name; the clock reads a fixed time; sends succeed. -/
def envRefusing : Env Unit :=
  { getCertificate := fun _ _ w => (.error "autocertdelegate: no certificate", w)
    now := fun w => ("2020-01-01T00:00:00Z", w)
    send := fun _ w => (none, w)
    marshalPKCS1PrivateKeyDER := fun _ => some []
    marshalECPrivateKeyWithOID := fun _ _ => .ok []
    protoMarshal := fun _ => .ok [] }

/-- A delegate that answers every name with a one-entry chain and an Ed25519 key; the clock
reads a fixed time; sends succeed. -/
def envEd25519 : Env Unit :=
  { getCertificate := fun _ _ w =>
      (.ok { Certificate := [[48, 3, 2, 1, 0]], PrivateKey := .other "ed25519.PrivateKey" [7] },
        w)
    now := fun w => ("2020-01-01T00:00:00Z", w)
    send := fun _ w => (none, w)
    marshalPKCS1PrivateKeyDER := fun _ => some []
    marshalECPrivateKeyWithOID := fun _ _ => .ok []
    protoMarshal := fun _ => .ok [] }

/-- A delegate that issues a certificate with an RSA key for `a.example.com` and refuses
every other name; the clock reads a fixed time; sends succeed; a secret is marshalled as its
name followed by its two byte strings. -/
def envPartial : Env Unit :=
  { getCertificate := fun _ hello w =>
      if hello.ServerName = "a.example.com" then
        (.ok { Certificate := [[48, 3, 2, 1, 0]], PrivateKey := .rsa ⟨15, 3, 3, [3, 5]⟩ }, w)
      else (.error "autocertdelegate: no certificate", w)
    now := fun w => ("2020-01-01T00:00:00Z", w)
    send := fun _ w => (none, w)
    marshalPKCS1PrivateKeyDER := fun key => some [48, 6, 2, 1, 0, 2, 1, key.N]
    marshalECPrivateKeyWithOID := fun _ _ => .ok []
    protoMarshal := fun secret =>
      .ok (strBytes secret.Name ++ secret.TlsCertificate.CertificateChain
            ++ secret.TlsCertificate.PrivateKey) }

/-- The readings of the clock of `envTicking`, one second apart. -/
def stamps : List String :=
  ["2020-01-01T00:00:00Z", "2020-01-01T00:00:01Z", "2020-01-01T00:00:02Z",
   "2020-01-01T00:00:03Z", "2020-01-01T00:00:04Z", "2020-01-01T00:00:05Z"]

/-- The environment `envPartial` with a clock that advances by one second at each reading;
the outside state is the number of readings so far. -/
def envTicking : Env Nat :=
  { getCertificate := fun _ hello w =>
      if hello.ServerName = "a.example.com" then
        (.ok { Certificate := [[48, 3, 2, 1, 0]], PrivateKey := .rsa ⟨15, 3, 3, [3, 5]⟩ }, w)
      else (.error "autocertdelegate: no certificate", w)
    now := fun w => (stamps.getD w "2020-01-01T00:01:00Z", w + 1)
    send := fun _ w => (none, w)
    marshalPKCS1PrivateKeyDER := fun key => some [48, 6, 2, 1, 0, 2, 1, key.N]
    marshalECPrivateKeyWithOID := fun _ _ => .ok []
    protoMarshal := fun secret =>
      .ok (strBytes secret.Name ++ secret.TlsCertificate.CertificateChain
            ++ secret.TlsCertificate.PrivateKey) }

/-! ## Certificate codec: proofs -/

theorem pemEncode_noHeaders (buf : Bytes) (t : String) (b : Bytes) :
    pemEncode buf { Type_ := t, Headers := [], Bytes := b }
      = .ok (buf ++ pemText { Type_ := t, Headers := [], Bytes := b }) := by
  simp [pemEncode]

theorem getPublicCertLoop_eq (chain : List Bytes) (buf : Bytes) :
    getPublicCertLoop chain buf
      = .ok (buf ++ chain.flatMap (fun der => pemText (certBlock der))) := by
  induction chain generalizing buf with
  | nil => simp [getPublicCertLoop]
  | cons der rest ih =>
    simp [getPublicCertLoop, pemEncode_noHeaders, ih, certBlock, List.append_assoc]

/-- C9. `getPublicCert` never fails; its output is the concatenation, in chain order, of what
`pem.Encode` writes for one `CERTIFICATE` block per chain entry. Hence the empty chain gives
no bytes, the output for `a ++ b` is the output for `a` followed by the output for `b`, and
the output depends on the chain alone. -/
theorem getPublicCert_concat (a b : List Bytes) (key key2 : PrivateKey) :
    (∀ der, pemEncode [] (certBlock der) = .ok (pemText (certBlock der)))
    ∧ getPublicCert { Certificate := a, PrivateKey := key }
        = .ok (a.flatMap (fun der => pemText (certBlock der)))
    ∧ getPublicCert { Certificate := [], PrivateKey := key } = .ok []
    ∧ (∃ x y, getPublicCert { Certificate := a, PrivateKey := key } = .ok x
        ∧ getPublicCert { Certificate := b, PrivateKey := key } = .ok y
        ∧ getPublicCert { Certificate := a ++ b, PrivateKey := key } = .ok (x ++ y))
    ∧ getPublicCert { Certificate := a, PrivateKey := key }
        = getPublicCert { Certificate := a, PrivateKey := key2 } := by
  refine ⟨fun der => ?_, ?_, ?_, ?_, ?_⟩
  · simpa [certBlock] using pemEncode_noHeaders [] "CERTIFICATE" der
  · simp [getPublicCert, getPublicCertLoop_eq]
  · simp [getPublicCert, getPublicCertLoop]
  · exact ⟨a.flatMap (fun der => pemText (certBlock der)),
      b.flatMap (fun der => pemText (certBlock der)),
      by simp [getPublicCert, getPublicCertLoop_eq],
      by simp [getPublicCert, getPublicCertLoop_eq],
      by simp [getPublicCert, getPublicCertLoop_eq]⟩
  · simp [getPublicCert]

theorem getPrivateCert_ecdsa {W : Type} (env : Env W) (chain : List Bytes)
    (key : ECDSAPrivateKey) :
    getPrivateCert env { Certificate := chain, PrivateKey := .ecdsa key }
      = match marshalECPrivateKey env key with
        | .panic => .panic
        | .error err => .error err
        | .ok b => .ok (pemText { Type_ := "EC PRIVATE KEY", Headers := [], Bytes := b }) := by
  simp only [getPrivateCert, encodeECDSAKey]
  cases marshalECPrivateKey env key with
  | panic => rfl
  | error err => rfl
  | ok b => simp [pemEncode_noHeaders]

theorem getPrivateCert_rsa {W : Type} (env : Env W) (chain : List Bytes)
    (key : RSAPrivateKey) :
    getPrivateCert env { Certificate := chain, PrivateKey := .rsa key }
      = match marshalPKCS1PrivateKey env key with
        | none => .panic
        | some b => .ok (pemText { Type_ := "RSA PRIVATE KEY", Headers := [], Bytes := b }) := by
  simp only [getPrivateCert]
  cases marshalPKCS1PrivateKey env key with
  | none => rfl
  | some b => simp [pemEncode_noHeaders]

theorem GetTLSCertificate_trace {W : Type} (env : Env W) (s : EnvoySDS) (name : String)
    (w : World W) :
    (GetTLSCertificate env s name w).2.trace = callFor s name :: w.trace := by
  unfold GetTLSCertificate
  split
  · next h => simp [clientGetCertificate] at h; simp [← h.2, callFor]
  · next tls w1 h =>
    have h2 : w1.trace = callFor s name :: w.trace := by
      simp [clientGetCertificate] at h; simp [← h.2, callFor]
    split
    · exact h2
    · split <;> exact h2

theorem getPrivateCert_unknown {W : Type} (env : Env W) (cert : Certificate)
    (h : cert.PrivateKey.unknown = true) :
    getPrivateCert env cert = .error unknownKeyType := by
  cases cert with
  | mk chain key =>
    cases key <;> simp_all [getPrivateCert, PrivateKey.unknown, unknownKeyType]

theorem GetTLSCertificate_unknown {W : Type} (env : Env W) (s : EnvoySDS) (name : String)
    (w : World W) (cert : Certificate) (x : W)
    (hd : env.getCertificate s.delegator (helloFor name) w.ext = (.ok cert, x))
    (hk : cert.PrivateKey.unknown = true) :
    (GetTLSCertificate env s name w).1 = .error unknownKeyType := by
  simp [GetTLSCertificate, clientGetCertificate, hd, getPublicCert, getPublicCertLoop_eq,
    getPrivateCert_unknown env cert hk]

/-! ## Secret builder: proofs -/

theorem makeSecretLoop_nil {W : Type} (env : Env W) (s : EnvoySDS) (acc : List Any)
    (w : World W) : makeSecretLoop env s [] acc w = (.ok acc, w) := rfl

theorem makeSecretLoop_cons_panic {W : Type} (env : Env W) (s : EnvoySDS) (rs : String)
    (rest : List String) (acc : List Any) (w w1 : World W)
    (h : GetTLSCertificate env s rs w = (.panic, w1)) :
    makeSecretLoop env s (rs :: rest) acc w = (.panic, w1) := by
  simp [makeSecretLoop, h]

theorem makeSecretLoop_cons_error {W : Type} (env : Env W) (s : EnvoySDS) (rs : String)
    (rest : List String) (acc : List Any) (w w1 : World W) (err : String)
    (h : GetTLSCertificate env s rs w = (.error err, w1)) :
    makeSecretLoop env s (rs :: rest) acc w
      = (.error ⟨.Internal, "failed to read TLS certificate (" ++ err ++ ")"⟩, w1) := by
  simp [makeSecretLoop, h]

theorem makeSecretLoop_cons_marshal {W : Type} (env : Env W) (s : EnvoySDS) (rs : String)
    (rest : List String) (acc : List Any) (w w1 : World W) (tls : TlsCertificate)
    (err : String) (h : GetTLSCertificate env s rs w = (.ok tls, w1))
    (hm : env.protoMarshal ⟨rs, tls⟩ = .error err) :
    makeSecretLoop env s (rs :: rest) acc w
      = (.error ⟨.Internal, "Generates invalid secret (" ++ err ++ ")"⟩, w1) := by
  simp [makeSecretLoop, h, hm]

theorem makeSecretLoop_cons_ok {W : Type} (env : Env W) (s : EnvoySDS) (rs : String)
    (rest : List String) (acc : List Any) (w w1 : World W) (tls : TlsCertificate)
    (data : Bytes) (h : GetTLSCertificate env s rs w = (.ok tls, w1))
    (hm : env.protoMarshal ⟨rs, tls⟩ = .ok data) :
    makeSecretLoop env s (rs :: rest) acc w
      = makeSecretLoop env s rest (acc ++ [⟨secretTypeURL, data⟩]) w1 := by
  simp [makeSecretLoop, h, hm]

/-- The four ways the body of the loop can go for the first name. -/
theorem makeSecretLoop_cases {W : Type} (env : Env W) (s : EnvoySDS) (rs : String)
    (w : World W) :
    (∃ w1, GetTLSCertificate env s rs w = (.panic, w1))
    ∨ (∃ err w1, GetTLSCertificate env s rs w = (.error err, w1))
    ∨ (∃ tls w1 err, GetTLSCertificate env s rs w = (.ok tls, w1)
        ∧ env.protoMarshal ⟨rs, tls⟩ = .error err)
    ∨ (∃ tls w1 data, GetTLSCertificate env s rs w = (.ok tls, w1)
        ∧ env.protoMarshal ⟨rs, tls⟩ = .ok data) := by
  rcases h : GetTLSCertificate env s rs w with ⟨r, w1⟩
  cases r with
  | panic => exact .inl ⟨w1, rfl⟩
  | error err => exact .inr (.inl ⟨err, w1, rfl⟩)
  | ok tls =>
    cases hm : env.protoMarshal ⟨rs, tls⟩ with
    | error err => exact .inr (.inr (.inl ⟨tls, w1, err, rfl, hm⟩))
    | ok data => exact .inr (.inr (.inr ⟨tls, w1, data, rfl, hm⟩))

/-- What one run of the loop of `makeSecret` does: it asks the delegate for a prefix of the
names, in order, and either panics, or fails with an `Internal` status, or appends one
resource per name to the slice it started from, having asked for every name. -/
theorem makeSecretLoop_run {W : Type} (env : Env W) (s : EnvoySDS) (names : List String)
    (acc : List Any) (w : World W) :
    ∃ called : List String, called <+: names
      ∧ (makeSecretLoop env s names acc w).2.trace
          = (called.map (callFor s)).reverse ++ w.trace
      ∧ (((makeSecretLoop env s names acc w).1 = .panic
            ∧ ∃ name ∈ names, ∃ w0, (GetTLSCertificate env s name w0).1 = .panic)
         ∨ (∃ st, (makeSecretLoop env s names acc w).1 = .error st ∧ st.code = .Internal)
         ∨ (∃ new, (makeSecretLoop env s names acc w).1 = .ok (acc ++ new)
              ∧ List.Forall₂ (builtFrom env s) names new ∧ called = names)) := by
  induction names generalizing acc w with
  | nil =>
    exact ⟨[], List.prefix_refl _, by simp [makeSecretLoop_nil],
      .inr (.inr ⟨[], by simp [makeSecretLoop_nil], List.Forall₂.nil, rfl⟩)⟩
  | cons rs rest ih =>
    have ht := GetTLSCertificate_trace env s rs w
    rcases makeSecretLoop_cases env s rs w with ⟨w1, h⟩ | ⟨err, w1, h⟩
      | ⟨tls, w1, err, h, hm⟩ | ⟨tls, w1, data, h, hm⟩
    · rw [makeSecretLoop_cons_panic env s rs rest acc w w1 h]
      rw [h] at ht
      exact ⟨[rs], by simp, by simpa using ht,
        .inl ⟨rfl, rs, by simp, w, by rw [h]⟩⟩
    · rw [makeSecretLoop_cons_error env s rs rest acc w w1 err h]
      rw [h] at ht
      exact ⟨[rs], by simp, by simpa using ht, .inr (.inl ⟨_, rfl, rfl⟩)⟩
    · rw [makeSecretLoop_cons_marshal env s rs rest acc w w1 tls err h hm]
      rw [h] at ht
      exact ⟨[rs], by simp, by simpa using ht, .inr (.inl ⟨_, rfl, rfl⟩)⟩
    · rw [makeSecretLoop_cons_ok env s rs rest acc w w1 tls data h hm]
      rw [h] at ht
      obtain ⟨called, hpre, htr, hres⟩ := ih (acc ++ [⟨secretTypeURL, data⟩]) w1
      refine ⟨rs :: called, by simpa using hpre, ?_, ?_⟩
      · rw [htr]
        simp only [] at ht
        rw [ht]
        simp
      · rcases hres with hres | hres | ⟨new, hok, hall, hc⟩
        · obtain ⟨hp, name, hmem, hw⟩ := hres
          exact .inl ⟨hp, name, List.mem_cons_of_mem _ hmem, hw⟩
        · exact .inr (.inl hres)
        · refine .inr (.inr ⟨⟨secretTypeURL, data⟩ :: new, ?_, ?_, by rw [hc]⟩)
          · rw [hok]; simp
          · refine List.Forall₂.cons ⟨tls, data, ⟨w, ?_⟩, hm, rfl⟩ hall
            rw [h]

theorem makeSecret_eq {W : Type} (env : Env W) (s : EnvoySDS) (names : List String)
    (v : String) (w : World W) :
    makeSecret env s names v w
      = (match (makeSecretLoop env s names [] w).1 with
          | .panic => .panic
          | .error err => .error err
          | .ok resources =>
            .ok { Resources := resources, TypeUrl := secretTypeURL, VersionInfo := v },
         (makeSecretLoop env s names [] w).2) := by
  unfold makeSecret
  rcases makeSecretLoop env s names [] w with ⟨r, w1⟩
  cases r <;> rfl

theorem bodyFails_not_ok {W : Type} (env : Env W) (s : EnvoySDS) (rs : String)
    (w : World W) (hf : bodyFails env s rs w) :
    ¬ ∃ tls w1 data, GetTLSCertificate env s rs w = (.ok tls, w1)
        ∧ env.protoMarshal ⟨rs, tls⟩ = .ok data := by
  rcases hf with ⟨err, h⟩ | ⟨tls, err, h, hm⟩
  · rintro ⟨tls2, w1, data, h2, hm2⟩
    rw [h2] at h; cases h
  · rintro ⟨tls2, w1, data, h2, hm2⟩
    rw [h2] at h
    cases h
    rw [hm] at hm2; cases hm2

/-- The loop fails exactly when, for some index, the names before it were processed
successfully and the body fails for the name at it in the world reached then. -/
theorem makeSecretLoop_error_iff {W : Type} (env : Env W) (s : EnvoySDS)
    (names : List String) (acc : List Any) (w : World W) :
    (∃ st, (makeSecretLoop env s names acc w).1 = .error st) ↔
      ∃ i, ∃ hi : i < names.length, ∃ res wi,
        makeSecretLoop env s (names.take i) acc w = (.ok res, wi)
          ∧ bodyFails env s (names.get ⟨i, hi⟩) wi := by
  induction names generalizing acc w with
  | nil => simp [makeSecretLoop_nil]
  | cons rs rest ih =>
    rcases makeSecretLoop_cases env s rs w with ⟨w1, h⟩ | ⟨err, w1, h⟩
      | ⟨tls, w1, err, h, hm⟩ | ⟨tls, w1, data, h, hm⟩
    · rw [makeSecretLoop_cons_panic env s rs rest acc w w1 h]
      constructor
      · rintro ⟨st, hst⟩
        cases hst
      · rintro ⟨i, hi, res, wi, hrun, hf⟩
        exfalso
        cases i with
        | zero =>
          have hf2 : bodyFails env s rs wi := by simpa using hf
          have hw : wi = w := by
            simp [makeSecretLoop_nil] at hrun
            exact hrun.2.symm
          rw [hw] at hf2
          rcases hf2 with ⟨err, he⟩ | ⟨tls, err, he, -⟩
          · rw [h] at he; cases he
          · rw [h] at he; cases he
        | succ j =>
          simp only [List.take_succ_cons] at hrun
          rw [makeSecretLoop_cons_panic env s rs (rest.take j) acc w w1 h] at hrun
          cases hrun
    · rw [makeSecretLoop_cons_error env s rs rest acc w w1 err h]
      refine ⟨fun _ => ⟨0, by simp, acc, w, by simp [makeSecretLoop_nil], ?_⟩,
        fun _ => ⟨_, rfl⟩⟩
      exact .inl ⟨err, by simp [h]⟩
    · rw [makeSecretLoop_cons_marshal env s rs rest acc w w1 tls err h hm]
      refine ⟨fun _ => ⟨0, by simp, acc, w, by simp [makeSecretLoop_nil], ?_⟩,
        fun _ => ⟨_, rfl⟩⟩
      exact .inr ⟨tls, err, by simp [h], by simpa using hm⟩
    · rw [makeSecretLoop_cons_ok env s rs rest acc w w1 tls data h hm, ih]
      constructor
      · rintro ⟨i, hi, res, wi, hrun, hf⟩
        refine ⟨i + 1, by simpa using hi, res, wi, ?_, by simpa using hf⟩
        simpa [makeSecretLoop_cons_ok env s rs (rest.take i) acc w w1 tls data h hm]
          using hrun
      · rintro ⟨i, hi, res, wi, hrun, hf⟩
        cases i with
        | zero =>
          exfalso
          have hf2 : bodyFails env s rs wi := by simpa using hf
          have hw : wi = w := by
            simp [makeSecretLoop_nil] at hrun
            exact hrun.2.symm
          rw [hw] at hf2
          exact bodyFails_not_ok env s rs w hf2 ⟨tls, w1, data, h, hm⟩
        | succ j =>
          refine ⟨j, by simpa using hi, res, wi, ?_, by simpa using hf⟩
          simpa [makeSecretLoop_cons_ok env s rs (rest.take j) acc w w1 tls data h hm]
            using hrun

theorem GetTLSCertificate_panic {W : Type} (env : Env W) (s : EnvoySDS) (name : String)
    (w : World W) (h : (GetTLSCertificate env s name w).1 = .panic) :
    ∃ cert, (env.getCertificate s.delegator (helloFor name) w.ext).1 = .ok cert
      ∧ getPrivateCert env cert = .panic := by
  unfold GetTLSCertificate clientGetCertificate at h
  rcases hd : env.getCertificate s.delegator (helloFor name) w.ext with ⟨r, x⟩
  rw [hd] at h
  cases r with
  | error e => simp at h
  | ok cert =>
    refine ⟨cert, rfl, ?_⟩
    simp only [] at h
    cases hp : getPublicCert cert with
    | error e => rw [hp] at h; simp at h
    | ok pub =>
      rw [hp] at h
      cases hq : getPrivateCert env cert with
      | panic => rfl
      | error e => rw [hq] at h; simp at h
      | ok priv => rw [hq] at h; simp at h

/-- C1. `makeSecret` returns either an error (and with it no response), or a response with
exactly one resource per name, the resource at each index being the marshalled secret named
by the name at that index under the type URL `secretTypeURL`, with the given version and
the type URL `secretTypeURL`. The one way it does not return is a panic of the private-key
serialisation on a certificate the delegate returned for one of the names. -/
theorem makeSecret_all_or_nothing {W : Type} (env : Env W) (s : EnvoySDS)
    (names : List String) (v : String) (w : World W) :
    (∃ st, (makeSecret env s names v w).1 = .error st)
    ∨ (∃ resp, (makeSecret env s names v w).1 = .ok resp
        ∧ resp.Resources.length = names.length
        ∧ (∀ i, ∀ hi : i < names.length, ∃ res, resp.Resources[i]? = some res
            ∧ res.TypeUrl = secretTypeURL
            ∧ ∃ tls, env.protoMarshal { Name := names.get ⟨i, hi⟩, TlsCertificate := tls }
                      = .ok res.Value
                ∧ ∃ wi, (GetTLSCertificate env s (names.get ⟨i, hi⟩) wi).1 = .ok tls)
        ∧ resp.VersionInfo = v ∧ resp.TypeUrl = secretTypeURL)
    ∨ ((makeSecret env s names v w).1 = .panic
        ∧ ∃ name ∈ names, ∃ w0 cert,
            (env.getCertificate s.delegator (helloFor name) w0).1 = .ok cert
              ∧ getPrivateCert env cert = .panic) := by
  obtain ⟨called, -, -, hres⟩ := makeSecretLoop_run env s names [] w
  rw [makeSecret_eq]
  rcases hres with ⟨hp, name, hmem, w0, hw⟩ | ⟨st, hst, -⟩ | ⟨new, hok, hall, -⟩
  · obtain ⟨cert, hc, hq⟩ := GetTLSCertificate_panic env s name w0 hw
    exact .inr (.inr ⟨by simp [hp], name, hmem, w0.ext, cert, hc, hq⟩)
  · exact .inl ⟨st, by simp [hst]⟩
  · refine .inr (.inl ⟨⟨v, new, secretTypeURL⟩, by simp [hok], hall.length_eq.symm, ?_,
      rfl, rfl⟩)
    intro i hi
    have hi2 : i < new.length := by rw [← hall.length_eq]; exact hi
    obtain ⟨tls, data, hw, hm, hr⟩ := (List.forall₂_iff_get.1 hall).2 i hi hi2
    refine ⟨new.get ⟨i, hi2⟩, by simp [List.getElem?_eq_getElem hi2], ?_, tls, ?_, hw⟩
    · rw [hr]
    · rw [hr]; exact hm

/-- C2. `makeSecret` returns an error exactly when, for some name of the list (reached
after the names before it were processed), `GetTLSCertificate` or the marshalling of the
secret fails; `GetTLSCertificate` fails exactly when the delegate call, the public encoding
or the private encoding fails; every error of `makeSecret` has the code `Internal`; and on
the empty list `makeSecret` succeeds with no resources. -/
theorem makeSecret_error_iff {W : Type} (env : Env W) (s : EnvoySDS) (names : List String)
    (v : String) (w : World W) :
    ((∃ st, (makeSecret env s names v w).1 = .error st) ↔
      ∃ i, ∃ hi : i < names.length, ∃ resp wi,
        makeSecret env s (names.take i) v w = (.ok resp, wi)
          ∧ bodyFails env s (names.get ⟨i, hi⟩) wi)
    ∧ (∀ name w0, (∃ err, (GetTLSCertificate env s name w0).1 = .error err) ↔
        ((∃ err, (env.getCertificate s.delegator (helloFor name) w0.ext).1 = .error err)
          ∨ ∃ cert, (env.getCertificate s.delegator (helloFor name) w0.ext).1 = .ok cert
              ∧ ((∃ err, getPublicCert cert = .error err)
                  ∨ ∃ err, getPrivateCert env cert = .error err)))
    ∧ (∀ st, (makeSecret env s names v w).1 = .error st → st.code = .Internal)
    ∧ makeSecret env s [] v w
        = (.ok { VersionInfo := v, Resources := [], TypeUrl := secretTypeURL }, w) := by
  refine ⟨?_, ?_, ?_, ?_⟩
  · have key := makeSecretLoop_error_iff env s names [] w
    constructor
    · rintro ⟨st, hst⟩
      rw [makeSecret_eq] at hst
      have : ∃ st, (makeSecretLoop env s names [] w).1 = .error st := by
        cases hl : (makeSecretLoop env s names [] w).1 with
        | panic => rw [hl] at hst; cases hst
        | error e => exact ⟨e, rfl⟩
        | ok r => rw [hl] at hst; cases hst
      obtain ⟨i, hi, res, wi, hrun, hf⟩ := key.1 this
      exact ⟨i, hi, ⟨v, res, secretTypeURL⟩, wi, by rw [makeSecret_eq, hrun], hf⟩
    · rintro ⟨i, hi, resp, wi, hrun, hf⟩
      rw [makeSecret_eq] at hrun
      have hl : makeSecretLoop env s (names.take i) [] w = (.ok resp.Resources, wi) := by
        rcases hq : makeSecretLoop env s (names.take i) [] w with ⟨r, w1⟩
        rw [hq] at hrun
        cases r with
        | panic => simp at hrun
        | error e => simp at hrun
        | ok r =>
          simp at hrun
          rw [← hrun.1, hrun.2]
      obtain ⟨st, hst⟩ := key.2 ⟨i, hi, resp.Resources, wi, hl, hf⟩
      exact ⟨st, by rw [makeSecret_eq, hst]⟩
  · intro name w0
    unfold GetTLSCertificate clientGetCertificate
    rcases hd : env.getCertificate s.delegator (helloFor name) w0.ext with ⟨r, x⟩
    cases r with
    | error e => simp
    | ok cert =>
      simp only []
      cases hp : getPublicCert cert with
      | error e => simp [hp]
      | ok pub =>
        cases hq : getPrivateCert env cert with
        | panic => simp [hp, hq]
        | error e => simp [hp, hq]
        | ok priv => simp [hp, hq]
  · intro st hst
    obtain ⟨called, -, -, hres⟩ := makeSecretLoop_run env s names [] w
    rw [makeSecret_eq] at hst
    rcases hres with ⟨hp, -⟩ | ⟨st2, hst2, hc⟩ | ⟨new, hok, -, -⟩
    · rw [hp] at hst
      cases hst
    · rw [hst2] at hst
      cases hst
      exact hc
    · rw [hok] at hst
      cases hst
  · rfl

/-- C1, an instance: one name the delegate serves. -/
theorem makeSecret_all_or_nothing_witness :
    ∃ resp, (makeSecret envPartial (New "certs.yourdomain.com" 20000000000)
          ["a.example.com"] "2020-01-01T00:00:00Z" ⟨(), []⟩).1 = .ok resp
      ∧ resp.Resources.length = 1 ∧ resp.VersionInfo = "2020-01-01T00:00:00Z" :=
  (makeSecret_all_or_nothing envPartial (New "certs.yourdomain.com" 20000000000)
      ["a.example.com"] "2020-01-01T00:00:00Z" ⟨(), []⟩).elim
    (fun h => h.elim (fun _ hst => Outcome.noConfusion hst))
    (fun h => h.elim
      (fun h => h.elim (fun resp hr => ⟨resp, hr.1, hr.2.1, hr.2.2.2.1⟩))
      (fun h => Outcome.noConfusion h.1))

/-- C2, an instance: the delegate serves the first of two names and refuses the second. -/
theorem makeSecret_error_iff_witness :
    (makeSecret envPartial (New "certs.yourdomain.com" 20000000000)
        ["a.example.com", "b.example.com"] "2020-01-01T00:00:00Z" ⟨(), []⟩).1
      = .error ⟨.Internal, "failed to read TLS certificate (autocertdelegate: no certificate)"⟩
    ∧ Status.code ⟨.Internal,
        "failed to read TLS certificate (autocertdelegate: no certificate)"⟩ = .Internal
    ∧ ∃ i, ∃ hi : i < ["a.example.com", "b.example.com"].length, ∃ resp wi,
        makeSecret envPartial (New "certs.yourdomain.com" 20000000000)
            (["a.example.com", "b.example.com"].take i) "2020-01-01T00:00:00Z" ⟨(), []⟩
          = (.ok resp, wi)
        ∧ bodyFails envPartial (New "certs.yourdomain.com" 20000000000)
            (["a.example.com", "b.example.com"].get ⟨i, hi⟩) wi :=
  have h := makeSecret_error_iff envPartial (New "certs.yourdomain.com" 20000000000)
    ["a.example.com", "b.example.com"] "2020-01-01T00:00:00Z" ⟨(), []⟩
  ⟨rfl, h.2.2.1 _ rfl, h.1.1 ⟨_, rfl⟩⟩

theorem makeSecretLoop_fails_of_mem {W : Type} (env : Env W) (s : EnvoySDS) (name : String)
    (hf : ∀ w0, ∃ err, (GetTLSCertificate env s name w0).1 = .error err)
    (names : List String) (hmem : name ∈ names) (acc : List Any) (w : World W)
    (res : List Any) :
    (makeSecretLoop env s names acc w).1 ≠ .ok res := by
  induction names generalizing acc w with
  | nil => cases hmem
  | cons rs rest ih =>
    rcases makeSecretLoop_cases env s rs w with ⟨w1, h⟩ | ⟨err, w1, h⟩
      | ⟨tls, w1, err, h, hm⟩ | ⟨tls, w1, data, h, hm⟩
    · rw [makeSecretLoop_cons_panic env s rs rest acc w w1 h]
      intro hc; cases hc
    · rw [makeSecretLoop_cons_error env s rs rest acc w w1 err h]
      intro hc; cases hc
    · rw [makeSecretLoop_cons_marshal env s rs rest acc w w1 tls err h hm]
      intro hc; cases hc
    · rw [makeSecretLoop_cons_ok env s rs rest acc w w1 tls data h hm]
      rcases List.mem_cons.1 hmem with heq | hrest
      · obtain ⟨err, herr⟩ := hf w
        rw [heq, h] at herr
        cases herr
      · exact ih hrest _ _

theorem makeSecret_run {W : Type} (env : Env W) (s : EnvoySDS) (names : List String)
    (v : String) (w : World W) :
    ∃ called : List String, called <+: names
      ∧ (makeSecret env s names v w).2.trace = called.reverse.map (callFor s) ++ w.trace
      ∧ ((makeSecret env s names v w).1 = .panic
         ∨ (∃ st, (makeSecret env s names v w).1 = .error st ∧ st.code = .Internal)
         ∨ (∃ resp, (makeSecret env s names v w).1 = .ok resp ∧ resp.VersionInfo = v
              ∧ resp.TypeUrl = secretTypeURL
              ∧ List.Forall₂ (builtFrom env s) names resp.Resources ∧ called = names)) := by
  obtain ⟨called, hpre, htr, hres⟩ := makeSecretLoop_run env s names [] w
  refine ⟨called, hpre, ?_, ?_⟩
  · rw [makeSecret_eq, List.map_reverse]
    exact htr
  · rw [makeSecret_eq]
    rcases hres with ⟨hp, -⟩ | ⟨st, hst, hc⟩ | ⟨new, hok, hall, hc⟩
    · exact .inl (by simp [hp])
    · exact .inr (.inl ⟨st, by simp [hst], hc⟩)
    · exact .inr (.inr ⟨⟨v, new, secretTypeURL⟩, by simp [hok], rfl, rfl, hall, hc⟩)

/-- C10, counterexample. An ECDSA key on a curve without a registered object identifier:
`getPrivateCert` returns the error of `x509.MarshalECPrivateKey`, not a PEM block. An RSA
key without primes: `x509.MarshalPKCS1PrivateKey` panics and `getPrivateCert` returns
nothing. -/
theorem getPrivateCert_ecdsa_unknownCurve :
    getPrivateCert envRefusing
        { Certificate := [], PrivateKey := .ecdsa ⟨.other "brainpoolP256r1", 1, 2, 3⟩ }
      = .error "x509: unknown elliptic curve"
    ∧ (¬ ∃ b, getPrivateCert envRefusing
        { Certificate := [], PrivateKey := .ecdsa ⟨.other "brainpoolP256r1", 1, 2, 3⟩ }
      = .ok (pemText { Type_ := "EC PRIVATE KEY", Headers := [], Bytes := b }))
    ∧ getPrivateCert envRefusing { Certificate := [], PrivateKey := .rsa ⟨0, 0, 0, []⟩ }
      = .panic := by
  have h : getPrivateCert envRefusing
        { Certificate := [], PrivateKey := .ecdsa ⟨.other "brainpoolP256r1", 1, 2, 3⟩ }
      = .error "x509: unknown elliptic curve" := rfl
  refine ⟨h, ?_, rfl⟩
  rintro ⟨b, hb⟩
  rw [h] at hb
  cases hb

/-- C10, amended. `getPrivateCert` dispatches on the key. For an ECDSA key it returns one
PEM block of type `EC PRIVATE KEY` over the serialisation when `x509.MarshalECPrivateKey`
returns one, returns its error when it returns an error, and does not return when it
panics. For an RSA key it returns one PEM block of type `RSA PRIVATE KEY` over the PKCS#1
serialisation when `x509.MarshalPKCS1PrivateKey` returns, and does not return when that
panics. For any other key, an absent one included, it returns the
unknown-private-key-type error. When the delegate answers a name with a certificate of the
last kind, `GetTLSCertificate` returns that error for the name, and when it does so
whenever asked, `makeSecret` returns no response for any list containing the name: it
returns an `Internal` error, or panics on a name before it. -/
theorem getPrivateCert_dispatch {W : Type} (env : Env W) (s : EnvoySDS) (chain : List Bytes)
    (ek : ECDSAPrivateKey) (rk : RSAPrivateKey) (typeName : String) (raw : Bytes) :
    getPrivateCert env { Certificate := chain, PrivateKey := .ecdsa ek }
      = (match marshalECPrivateKey env ek with
          | .panic => .panic
          | .error err => .error err
          | .ok b => .ok (pemText { Type_ := "EC PRIVATE KEY", Headers := [], Bytes := b }))
    ∧ getPrivateCert env { Certificate := chain, PrivateKey := .rsa rk }
      = (match marshalPKCS1PrivateKey env rk with
          | none => .panic
          | some b => .ok (pemText { Type_ := "RSA PRIVATE KEY", Headers := [], Bytes := b }))
    ∧ getPrivateCert env { Certificate := chain, PrivateKey := .other typeName raw }
      = .error "cmd/envoysds: unknown private key type"
    ∧ getPrivateCert env { Certificate := chain, PrivateKey := .absent }
      = .error "cmd/envoysds: unknown private key type"
    ∧ (∀ name w0 cert x,
        env.getCertificate s.delegator (helloFor name) w0.ext = (.ok cert, x) →
        cert.PrivateKey.unknown = true →
        (GetTLSCertificate env s name w0).1 = .error "cmd/envoysds: unknown private key type")
    ∧ (∀ name,
        (∀ x, ∃ cert y, env.getCertificate s.delegator (helloFor name) x = (.ok cert, y)
            ∧ cert.PrivateKey.unknown = true) →
        ∀ names v w, name ∈ names →
          (∃ st, (makeSecret env s names v w).1 = .error st ∧ st.code = .Internal)
          ∨ (makeSecret env s names v w).1 = .panic) := by
  refine ⟨getPrivateCert_ecdsa env chain ek, getPrivateCert_rsa env chain rk, rfl, rfl, ?_, ?_⟩
  · intro name w0 cert x hd hk
    exact GetTLSCertificate_unknown env s name w0 cert x hd hk
  · intro name hd names v w hmem
    have hf : ∀ w0, ∃ err, (GetTLSCertificate env s name w0).1 = .error err := by
      intro w0
      obtain ⟨cert, y, hc, hk⟩ := hd w0.ext
      exact ⟨_, GetTLSCertificate_unknown env s name w0 cert y hc hk⟩
    obtain ⟨called, -, -, hres⟩ := makeSecret_run env s names v w
    rcases hres with hres | hres | ⟨resp, hok, -⟩
    · exact .inr hres
    · exact .inl hres
    · exfalso
      rw [makeSecret_eq] at hok
      cases hl : (makeSecretLoop env s names [] w).1 with
      | panic => rw [hl] at hok; cases hok
      | error e => rw [hl] at hok; cases hok
      | ok res => exact makeSecretLoop_fails_of_mem env s name hf names hmem [] w res hl

/-- C10, an instance: a delegate that answers with a certificate carrying an Ed25519 key. -/
theorem getPrivateCert_dispatch_witness :
    (∀ x, ∃ cert y, envEd25519.getCertificate "certs.yourdomain.com"
          (helloFor "a.example.com") x = (.ok cert, y) ∧ cert.PrivateKey.unknown = true)
    ∧ "a.example.com" ∈ ["b.example.com", "a.example.com"]
    ∧ ∃ st, (makeSecret envEd25519 (New "certs.yourdomain.com" 20000000000)
                ["b.example.com", "a.example.com"] "2020-01-01T00:00:00Z" ⟨(), []⟩).1
              = .error st ∧ st.code = .Internal :=
  have hd : ∀ x, ∃ cert y, envEd25519.getCertificate "certs.yourdomain.com"
          (helloFor "a.example.com") x = (.ok cert, y) ∧ cert.PrivateKey.unknown = true :=
    fun x => ⟨_, x, rfl, rfl⟩
  have hm : "a.example.com" ∈ ["b.example.com", "a.example.com"] := by simp
  ⟨hd, hm,
    ((getPrivateCert_dispatch envEd25519 (New "certs.yourdomain.com" 20000000000) []
      ⟨.P256, 1, 2, 3⟩ ⟨15, 3, 3, [3, 5]⟩ "ed25519.PrivateKey" []).2.2.2.2.2
      "a.example.com" hd ["b.example.com", "a.example.com"] "2020-01-01T00:00:00Z"
      ⟨(), []⟩ hm).elim id (fun h => Outcome.noConfusion h)⟩

/-! ## Stream session: proofs -/

theorem sendCalls_calls (s : EnvoySDS) (l : List String) (t : List Event) :
    sendCalls (l.map (callFor s) ++ t) = sendCalls t := by
  induction l with
  | nil => rfl
  | cons a l ih => simpa [callFor, sendCalls] using ih

theorem newVersion_trace {W : Type} (env : Env W) (w : World W) :
    (newVersion env w).2.trace = .now (newVersion env w).1 :: w.trace := rfl

/-- An iteration on a request that is neither an error report nor an acknowledgement:
allocate a version, build, send. -/
theorem recvIteration_build {W : Type} (env : Env W) (s : EnvoySDS) (r : DiscoveryRequest)
    (ss : Session) (w : World W) (hE : r.ErrorDetail = none)
    (hV : ¬ (r.VersionInfo ≠ "" ∧ r.VersionInfo = ss.version)) :
    recvIteration env s (.ok r) ss w
      = match makeSecret env s r.ResourceNames (newVersion env w).1 (newVersion env w).2 with
        | (.panic, w2) => (.panic, ⟨r.ResourceNames, (newVersion env w).1⟩, w2)
        | (.error _, w2) => (.next, ⟨r.ResourceNames, (newVersion env w).1⟩, w2)
        | (.ok secret, w2) =>
          match streamSend env secret w2 with
          | (some err, w3) => (.ret err, ⟨r.ResourceNames, (newVersion env w).1⟩, w3)
          | (none, w3) => (.next, ⟨r.ResourceNames, (newVersion env w).1⟩, w3) := by
  simp only [recvIteration, hE, Option.isSome_none, Bool.false_eq_true, if_false]
  rw [if_neg (by simpa using hV)]

/-- An iteration on an error report changes nothing. -/
theorem recvIteration_of_errorDetail {W : Type} (env : Env W) (s : EnvoySDS)
    (r : DiscoveryRequest) (ss : Session) (w : World W) (d : String)
    (hE : r.ErrorDetail = some d) :
    recvIteration env s (.ok r) ss w = (.next, ss, w) := by
  simp [recvIteration, hE]

/-- An iteration on an acknowledgement only takes over the names. -/
theorem recvIteration_of_ack {W : Type} (env : Env W) (s : EnvoySDS) (r : DiscoveryRequest)
    (ss : Session) (w : World W) (hE : r.ErrorDetail = none)
    (hV : r.VersionInfo ≠ "" ∧ r.VersionInfo = ss.version) :
    recvIteration env s (.ok r) ss w
      = (.next, { names := r.ResourceNames, version := ss.version }, w) := by
  simp [recvIteration, hE, hV.1, hV.2.symm]

/-- C3, counterexample. On a fresh stream a request with no error detail and the empty
version has the session's current version, and the iteration builds and sends a response. -/
theorem recvIteration_initial_empty_version :
    (DiscoveryRequest.mk "" [] secretTypeURL "" none).ErrorDetail = none
    ∧ (DiscoveryRequest.mk "" [] secretTypeURL "" none).VersionInfo = Session.init.version
    ∧ sendCalls (recvIteration envRefusing (New "certs.yourdomain.com" 20000000000)
        (.ok (DiscoveryRequest.mk "" [] secretTypeURL "" none)) Session.init
        ⟨(), []⟩).2.2.trace
      = [{ VersionInfo := "2020-01-01T00:00:00Z", Resources := [],
           TypeUrl := secretTypeURL }] := by
  refine ⟨rfl, rfl, ?_⟩
  rfl

/-- C3, amended. A request with no error detail whose version is not empty and equals the
session's current version makes the iteration go on to the next receive with the world
untouched (no version allocated, no delegate call, no send); the request's names become
the session's names. -/
theorem recvIteration_ack {W : Type} (env : Env W) (s : EnvoySDS) (r : DiscoveryRequest)
    (ss : Session) (w : World W) (hE : r.ErrorDetail = none) (hN : r.VersionInfo ≠ "")
    (hV : r.VersionInfo = ss.version) :
    recvIteration env s (.ok r) ss w
      = (.next, { names := r.ResourceNames, version := ss.version }, w) := by
  simp [recvIteration, hE, hN, hV.symm]

/-- C3, an instance: the acknowledgement of the version sent last. -/
theorem recvIteration_ack_witness :
    recvIteration envRefusing (New "certs.yourdomain.com" 20000000000)
        (.ok (DiscoveryRequest.mk "2020-01-01T00:00:00Z" ["a.example.com"] secretTypeURL ""
          none))
        { names := ["a.example.com"], version := "2020-01-01T00:00:00Z" } ⟨(), []⟩
      = (.next, { names := ["a.example.com"], version := "2020-01-01T00:00:00Z" },
          ⟨(), []⟩) :=
  recvIteration_ack envRefusing _ _ _ _ rfl (by decide) rfl

/-- C5. A request with an error detail makes the iteration go on to the next receive with
the session and the world untouched: no version allocated, no delegate call, no send, and
`StreamSecrets` does not return. -/
theorem recvIteration_errorDetail {W : Type} (env : Env W) (s : EnvoySDS)
    (r : DiscoveryRequest) (ss : Session) (w : World W) (hE : r.ErrorDetail ≠ none) :
    recvIteration env s (.ok r) ss w = (.next, ss, w) := by
  cases h : r.ErrorDetail with
  | none => exact absurd h hE
  | some d => simp [recvIteration, h]

/-- C5, an instance: a rejected push, reported with other names and another version. -/
theorem recvIteration_errorDetail_witness :
    recvIteration envRefusing (New "certs.yourdomain.com" 20000000000)
        (.ok (DiscoveryRequest.mk "2019-12-31T00:00:00Z" ["b.example.com"] secretTypeURL ""
          (some "rejected")))
        { names := ["a.example.com"], version := "2020-01-01T00:00:00Z" } ⟨(), []⟩
      = (.next, { names := ["a.example.com"], version := "2020-01-01T00:00:00Z" },
          ⟨(), []⟩) :=
  recvIteration_errorDetail envRefusing _ _ _ _ (by decide)



theorem streamSend_eq {W : Type} (env : Env W) (resp : DiscoveryResponse) (w : World W) :
    streamSend env resp w
      = ((env.send resp w.ext).1,
          { ext := (env.send resp w.ext).2,
            trace := .send resp (env.send resp w.ext).1 :: w.trace }) := rfl

/-- C6. On a request that triggers a build (no error detail, not an acknowledgement) whose
build fails, the iteration makes no call to `stream.Send` and goes on to the next receive,
with the world left as the failed build left it. And an iteration makes `StreamSecrets`
return an error only when `stream.Recv` returned that error or the iteration's last call was
a `stream.Send` that returned it. -/
theorem recvIteration_build_failure {W : Type} (env : Env W) (s : EnvoySDS) :
    (∀ (r : DiscoveryRequest) (ss : Session) (w : World W) (st : Status),
      r.ErrorDetail = none → ¬ (r.VersionInfo ≠ "" ∧ r.VersionInfo = ss.version) →
      (makeSecret env s r.ResourceNames (newVersion env w).1 (newVersion env w).2).1
        = .error st →
      (recvIteration env s (.ok r) ss w).1 = .next
      ∧ sendCalls (recvIteration env s (.ok r) ss w).2.2.trace = sendCalls w.trace
      ∧ (recvIteration env s (.ok r) ss w).2.2
          = (makeSecret env s r.ResourceNames (newVersion env w).1 (newVersion env w).2).2)
    ∧ (∀ (rcv : Except String DiscoveryRequest) (ss : Session) (w : World W) (err : String),
        (recvIteration env s rcv ss w).1 = .ret err →
        rcv = .error err
        ∨ ∃ resp rest, (recvIteration env s rcv ss w).2.2.trace
            = .send resp (some err) :: rest) := by
  constructor
  · intro r ss w st hE hV hB
    obtain ⟨called, -, htr, -⟩ :=
      makeSecret_run env s r.ResourceNames (newVersion env w).1 (newVersion env w).2
    rw [recvIteration_build env s r ss w hE hV]
    rcases hms : makeSecret env s r.ResourceNames (newVersion env w).1 (newVersion env w).2
      with ⟨res, w2⟩
    rw [hms] at hB htr
    cases res with
    | panic => cases hB
    | ok resp => cases hB
    | error e =>
      simp only [] at htr
      refine ⟨rfl, ?_, rfl⟩
      simp only []
      rw [htr, sendCalls_calls, newVersion_trace]
      rfl
  · intro rcv ss w err hret
    cases rcv with
    | error e =>
      simp [recvIteration] at hret
      exact .inl (by rw [hret])
    | ok r =>
      right
      cases hE : r.ErrorDetail with
      | some d =>
        rw [recvIteration_of_errorDetail env s r ss w d hE] at hret
        cases hret
      | none =>
        by_cases hV : r.VersionInfo ≠ "" ∧ r.VersionInfo = ss.version
        · rw [recvIteration_of_ack env s r ss w hE hV] at hret
          cases hret
        · rw [recvIteration_build env s r ss w hE hV] at hret ⊢
          rcases hms : makeSecret env s r.ResourceNames (newVersion env w).1
            (newVersion env w).2 with ⟨res, w2⟩
          rw [hms] at hret
          cases res with
          | panic => cases hret
          | error e => cases hret
          | ok resp =>
            simp only [streamSend_eq] at hret ⊢
            cases hs : (env.send resp w2.ext).1 with
            | none => rw [hs] at hret; cases hret
            | some e2 =>
              rw [hs] at hret
              simp only [Control.ret.injEq] at hret
              exact ⟨resp, w2.trace, by rw [hret]⟩

/-- C6, an instance: the delegate serves the first of two requested names and refuses the
second. -/
theorem recvIteration_build_failure_witness :
    (recvIteration envPartial (New "certs.yourdomain.com" 20000000000)
        (.ok (DiscoveryRequest.mk "" ["a.example.com", "b.example.com"] secretTypeURL ""
          none)) Session.init ⟨(), []⟩).1 = .next
    ∧ sendCalls (recvIteration envPartial (New "certs.yourdomain.com" 20000000000)
        (.ok (DiscoveryRequest.mk "" ["a.example.com", "b.example.com"] secretTypeURL ""
          none)) Session.init ⟨(), []⟩).2.2.trace = [] :=
  have h := (recvIteration_build_failure envPartial
      (New "certs.yourdomain.com" 20000000000)).1
    (DiscoveryRequest.mk "" ["a.example.com", "b.example.com"] secretTypeURL "" none)
    Session.init ⟨(), []⟩ ⟨.Internal,
      "failed to read TLS certificate (autocertdelegate: no certificate)"⟩
    rfl (by decide) rfl
  ⟨h.1, h.2.1⟩



theorem workerIteration_eq {W : Type} (env : Env W) (s : EnvoySDS) (names : List String)
    (ss : Session) (w : World W) :
    workerIteration env s names ss w
      = match makeSecret env s names (newVersion env w).1 (newVersion env w).2 with
        | (.panic, w2) => (.panic, ⟨ss.names, (newVersion env w).1⟩, w2)
        | (.error _, w2) => (.exit, ⟨ss.names, (newVersion env w).1⟩, w2)
        | (.ok secret, w2) =>
          match streamSend env secret w2 with
          | (some _, w3) => (.exit, ⟨ss.names, (newVersion env w).1⟩, w3)
          | (none, w3) => (.next, ⟨ss.names, (newVersion env w).1⟩, w3) := rfl

theorem step_worker_names {W : Type} (env : Env W) (s : EnvoySDS) (st : Stream × World W) :
    (step env s st .worker).1.session.names = st.1.session.names := by
  simp only [step]
  split
  · rfl
  · split
    · split <;> rfl
    · rfl

theorem step_reset_session {W : Type} (env : Env W) (s : EnvoySDS) (st : Stream × World W)
    (names : List String) :
    (step env s st (.reset names)).1.session = st.1.session := by
  simp only [step]
  split
  · rfl
  · split <;> rfl

theorem step_done_session {W : Type} (env : Env W) (s : EnvoySDS) (st : Stream × World W) :
    (step env s st .done).1.session = st.1.session := by
  simp only [step]
  split
  · rfl
  · split <;> rfl

/-- C8, counterexample. A refresh event on a fresh stream: the worker iteration replaces the
session's version. -/
theorem workerIteration_changes_version :
    (workerIteration envRefusing (New "certs.yourdomain.com" 20000000000) []
        Session.init ⟨(), []⟩).2.1.version = "2020-01-01T00:00:00Z"
    ∧ (workerIteration envRefusing (New "certs.yourdomain.com" 20000000000) []
        Session.init ⟨(), []⟩).2.1.version ≠ Session.init.version := by
  refine ⟨rfl, ?_⟩
  decide

/-- C8, amended. A worker iteration leaves the session's names as they were, whatever the
outcome of its build and send, and so does every step of the worker on the stream; it sets
the session's version to the version it allocates. The delegate calls it makes are for a
prefix of the names carried by the refresh event, in order, and if it calls `stream.Send`
it does so once, after asking for all of those names, with the response built over them. -/
theorem workerIteration_frame {W : Type} (env : Env W) (s : EnvoySDS) (names : List String)
    (ss : Session) (w : World W) :
    (workerIteration env s names ss w).2.1.names = ss.names
    ∧ (workerIteration env s names ss w).2.1.version = (newVersion env w).1
    ∧ (∃ called sent, called <+: names
        ∧ (workerIteration env s names ss w).2.2.trace
            = sent ++ (called.reverse.map (callFor s) ++ .now (newVersion env w).1 :: w.trace)
        ∧ (sent = []
            ∨ ∃ resp o, sent = [.send resp o] ∧ called = names
                ∧ (makeSecret env s names (newVersion env w).1 (newVersion env w).2).1
                    = .ok resp))
    ∧ (∀ st : Stream × World W,
        (step env s st (.reset names)).1.session.names = st.1.session.names
        ∧ (step env s st .done).1.session = st.1.session
        ∧ (step env s st .worker).1.session.names = st.1.session.names) := by
  refine ⟨?_, ?_, ?_, ?_⟩
  · rw [workerIteration_eq]
    rcases makeSecret env s names (newVersion env w).1 (newVersion env w).2 with ⟨res, w2⟩
    cases res with
    | panic => rfl
    | error e => rfl
    | ok resp =>
      simp only [streamSend_eq]
      cases (env.send resp w2.ext).1 <;> rfl
  · rw [workerIteration_eq]
    rcases makeSecret env s names (newVersion env w).1 (newVersion env w).2 with ⟨res, w2⟩
    cases res with
    | panic => rfl
    | error e => rfl
    | ok resp =>
      simp only [streamSend_eq]
      cases (env.send resp w2.ext).1 <;> rfl
  · obtain ⟨called, hpre, htr, hres⟩ :=
      makeSecret_run env s names (newVersion env w).1 (newVersion env w).2
    rw [workerIteration_eq]
    rcases hms : makeSecret env s names (newVersion env w).1 (newVersion env w).2
      with ⟨res, w2⟩
    rw [hms] at htr hres
    simp only [newVersion_trace] at htr
    cases res with
    | panic => exact ⟨called, [], hpre, by simpa using htr, .inl rfl⟩
    | error e => exact ⟨called, [], hpre, by simpa using htr, .inl rfl⟩
    | ok resp =>
      have hc : called = names := by
        rcases hres with hp | ⟨st, hst, -⟩ | ⟨resp2, -, -, -, -, hc⟩
        · cases hp
        · cases hst
        · exact hc
      refine ⟨called, [.send resp (env.send resp w2.ext).1], hpre, ?_,
        .inr ⟨resp, _, rfl, hc, rfl⟩⟩
      simp only [streamSend_eq]
      cases hs : (env.send resp w2.ext).1 <;> simp [htr]
  · intro st
    exact ⟨by rw [step_reset_session], step_done_session env s st,
      step_worker_names env s st⟩

/-! ## The interleaved stream: proofs -/

theorem run_cons {W : Type} (env : Env W) (s : EnvoySDS) (st : Stream × World W)
    (i : Input) (rest : List Input) :
    run env s st (i :: rest) = run env s (step env s st i) rest := rfl

theorem run_append {W : Type} (env : Env W) (s : EnvoySDS) (st : Stream × World W)
    (a b : List Input) :
    run env s st (a ++ b) = run env s (run env s st a) b := by
  simp [run, List.foldl_append]

theorem makeSecretLoop_cons_body {W : Type} (env : Env W) (s : EnvoySDS) (rs : String)
    (rest : List String) (acc : List Any) (w : World W) :
    makeSecretLoop env s (rs :: rest) acc w
      = match makeSecretBody env s rs acc w with
        | (.panic, w1) => (.panic, w1)
        | (.error err, w1) => (.error err, w1)
        | (.ok acc1, w1) => makeSecretLoop env s rest acc1 w1 := by
  simp only [makeSecretLoop, makeSecretBody]
  rcases GetTLSCertificate env s rs w with ⟨r, w1⟩
  cases r with
  | panic => rfl
  | error err => rfl
  | ok tls =>
    simp only []
    cases env.protoMarshal ⟨rs, tls⟩ <;> rfl

/-- The receive loop, stepping alone through a build that succeeds, reaches the send with
the response `makeSecret` builds. -/
theorem run_loop_build {W : Type} (env : Env W) (s : EnvoySDS) (v : String)
    (rest : List String) (acc res : List Any) (w w2 : World W) (ss : Session)
    (wk : WorkerPc) (h : makeSecretLoop env s rest acc w = (.ok res, w2)) :
    run env s (⟨ss, .task (.build v rest acc), wk, false⟩, w)
        (List.replicate (rest.length + 1) .loop)
      = (⟨ss, .task (.send ⟨v, res, secretTypeURL⟩), wk, false⟩, w2) := by
  induction rest generalizing acc w with
  | nil =>
    simp only [makeSecretLoop_nil, Prod.mk.injEq] at h
    obtain ⟨h1, h2⟩ := h
    cases h1
    subst h2
    rfl
  | cons rs rest ih =>
    rw [makeSecretLoop_cons_body] at h
    rcases hb : makeSecretBody env s rs acc w with ⟨r, w1⟩
    rw [hb] at h
    cases r with
    | panic => cases h
    | error e => cases h
    | ok acc1 =>
      simp only [] at h
      have hstep : step env s (⟨ss, .task (.build v (rs :: rest) acc), wk, false⟩, w) .loop
          = (⟨ss, .task (.build v rest acc1), wk, false⟩, w1) := by
        simp [step, taskStep, hb]
      rw [List.length_cons, List.replicate_succ, run_cons, hstep]
      exact ih acc1 w1 h

/-- The receive loop, stepping alone from a receive to the end of its send, does what
`recvIteration` does when the build succeeds. -/
theorem run_loop_alone {W : Type} (env : Env W) (s : EnvoySDS) (r : DiscoveryRequest)
    (st : Stream) (w w2 : World W) (resp : DiscoveryResponse)
    (hL : st.loop = .recv) (hC : st.crashed = false) (hE : r.ErrorDetail = none)
    (hV : ¬ (r.VersionInfo ≠ "" ∧ r.VersionInfo = st.session.version))
    (hB : makeSecret env s r.ResourceNames (newVersion env w).1 (newVersion env w).2
            = (.ok resp, w2)) :
    run env s (st, w) (.recv (.ok r) :: List.replicate (r.ResourceNames.length + 6) .loop)
      = (⟨⟨r.ResourceNames, (newVersion env w).1⟩,
          (match (env.send resp w2.ext).1 with
            | none => .recv
            | some err => .returned err),
          st.worker, false⟩,
         ⟨(env.send resp w2.ext).2, .send resp (env.send resp w2.ext).1 :: w2.trace⟩) := by
  obtain ⟨ss, pc, wk, cr⟩ := st
  simp only [] at hL hC hV
  subst hL hC
  rw [makeSecret_eq] at hB
  rcases hl : makeSecretLoop env s r.ResourceNames [] (newVersion env w).2 with ⟨res, w3⟩
  rw [hl] at hB
  cases res with
  | panic => simp at hB
  | error e => simp at hB
  | ok res =>
    simp only [Prod.mk.injEq, Outcome.ok.injEq] at hB
    obtain ⟨hresp, hw⟩ := hB
    subst hw
    have e1 : r.ResourceNames.length + 6 = 4 + ((r.ResourceNames.length + 1) + 1) := by omega
    rw [e1, List.replicate_add, run_cons, run_append]
    have h4 : run env s (step env s (⟨ss, .recv, wk, false⟩, w) (.recv (.ok r)))
          (List.replicate 4 .loop)
        = (⟨⟨r.ResourceNames, (newVersion env w).1⟩,
            .task (.build (newVersion env w).1 r.ResourceNames []), wk, false⟩,
           (newVersion env w).2) := by
      simp [step, hE, List.replicate, run, taskStep, hV]
    rw [h4, List.replicate_succ', run_append,
      run_loop_build env s _ r.ResourceNames [] res _ w3 _ wk hl]
    subst hresp
    cases hs : (env.send ⟨(newVersion env w).1, res, secretTypeURL⟩ w3.ext).1 <;>
      simp [List.replicate, run, step, taskStep, streamSend_eq, hs]

theorem step_names_frame {W : Type} (env : Env W) (s : EnvoySDS) (st : Stream × World W)
    (i : Input) (hi : ∀ rcv, i ≠ .recv rcv) :
    (step env s st i).1.session.names = st.1.session.names := by
  cases i with
  | recv rcv => exact absurd rfl (hi rcv)
  | loop =>
    simp only [step]
    split
    · rfl
    · split
      · split <;> rfl
      · split <;> rfl
      · rfl
  | reset names => rw [step_reset_session]
  | worker => exact step_worker_names env s st
  | done => rw [step_done_session]

/-- C4, counterexample. The first request of a stream, for a name the delegate serves, and
a refresh event that the worker handles while the receive loop is about to ask the
delegate: the worker assigns `version` and sends, then the loop's build succeeds and the
loop sends the response with the version it allocated, one second older. When the iteration
ends the session's version is the worker's, not that of the response the iteration sent. -/
theorem run_iteration_overlapped :
    (DiscoveryRequest.mk "" ["a.example.com"] secretTypeURL "" none).ErrorDetail = none
    ∧ (DiscoveryRequest.mk "" ["a.example.com"] secretTypeURL "" none).VersionInfo = ""
    ∧ (run envTicking (New "certs.yourdomain.com" 20000000000) (Stream.init, ⟨0, []⟩)
        [.recv (.ok (DiscoveryRequest.mk "" ["a.example.com"] secretTypeURL "" none)),
         .loop, .loop, .loop, .loop,
         .reset ["a.example.com"], .worker, .worker, .worker, .worker, .worker, .worker,
         .loop, .loop, .loop]).1
      = { session := { names := ["a.example.com"], version := "2020-01-01T00:00:01Z" }
          loop := .recv, worker := .select, crashed := false }
    ∧ (sendCalls (run envTicking (New "certs.yourdomain.com" 20000000000)
        (Stream.init, ⟨0, []⟩)
        [.recv (.ok (DiscoveryRequest.mk "" ["a.example.com"] secretTypeURL "" none)),
         .loop, .loop, .loop, .loop,
         .reset ["a.example.com"], .worker, .worker, .worker, .worker, .worker, .worker,
         .loop, .loop, .loop]).2.trace).map DiscoveryResponse.VersionInfo
      = ["2020-01-01T00:00:00Z", "2020-01-01T00:00:01Z"] := by
  refine ⟨rfl, rfl, ?_, ?_⟩
  · rfl
  · rfl

/-- C4, amended. On a request with no error detail whose version is empty or differs from
the session's current version, when the build over the request's names succeeds and the
receive loop takes every step from the receive to the return of its send with no step of
the worker in between, the iteration calls `stream.Send` exactly once, with the built
response; the version of that response is the one `newVersion` returned in this iteration;
afterwards the session's names are the request's names and the session's version is the
version of that response; the loop is back in `stream.Recv()` if the send succeeded and
`StreamSecrets` has returned the send error otherwise. This is what `recvIteration`
computes. Whatever the interleaving, only a receive changes the session's names. -/
theorem run_iteration_alone_sends {W : Type} (env : Env W) (s : EnvoySDS)
    (r : DiscoveryRequest) (st : Stream) (w w2 : World W) (resp : DiscoveryResponse)
    (hL : st.loop = .recv) (hC : st.crashed = false) (hE : r.ErrorDetail = none)
    (hV : r.VersionInfo = "" ∨ r.VersionInfo ≠ st.session.version)
    (hB : makeSecret env s r.ResourceNames (newVersion env w).1 (newVersion env w).2
            = (.ok resp, w2)) :
    sendCalls (run env s (st, w)
        (.recv (.ok r) :: List.replicate (r.ResourceNames.length + 6) .loop)).2.trace
      = resp :: sendCalls w.trace
    ∧ (run env s (st, w)
        (.recv (.ok r) :: List.replicate (r.ResourceNames.length + 6) .loop)).2.trace
      = .send resp (env.send resp w2.ext).1 :: w2.trace
    ∧ resp.VersionInfo = (newVersion env w).1
    ∧ (run env s (st, w)
        (.recv (.ok r) :: List.replicate (r.ResourceNames.length + 6) .loop)).1.session.names
      = r.ResourceNames
    ∧ (run env s (st, w)
        (.recv (.ok r) :: List.replicate (r.ResourceNames.length + 6) .loop)).1.session.version
      = resp.VersionInfo
    ∧ (run env s (st, w)
        (.recv (.ok r) :: List.replicate (r.ResourceNames.length + 6) .loop)).1.loop
      = (match (env.send resp w2.ext).1 with
          | none => .recv
          | some err => .returned err)
    ∧ (run env s (st, w)
        (.recv (.ok r) :: List.replicate (r.ResourceNames.length + 6) .loop)).1.session
      = (recvIteration env s (.ok r) st.session w).2.1
    ∧ (run env s (st, w)
        (.recv (.ok r) :: List.replicate (r.ResourceNames.length + 6) .loop)).2
      = (recvIteration env s (.ok r) st.session w).2.2
    ∧ (∀ (x : Stream × World W) (i : Input), (∀ rcv, i ≠ .recv rcv) →
        (step env s x i).1.session.names = x.1.session.names) := by
  have hV2 : ¬ (r.VersionInfo ≠ "" ∧ r.VersionInfo = st.session.version) := by
    rintro ⟨h1, h2⟩
    rcases hV with h | h
    · exact h1 h
    · exact h h2
  obtain ⟨called, -, htr, hres⟩ :=
    makeSecret_run env s r.ResourceNames (newVersion env w).1 (newVersion env w).2
  rw [hB] at htr hres
  have hver : resp.VersionInfo = (newVersion env w).1 := by
    rcases hres with hp | ⟨st, hst, -⟩ | ⟨resp2, hok, hv, -⟩
    · cases hp
    · cases hst
    · cases hok; exact hv
  have hsc : sendCalls w2.trace = sendCalls w.trace := by
    simp only [] at htr
    rw [htr, sendCalls_calls, newVersion_trace]
    rfl
  rw [run_loop_alone env s r st w w2 resp hL hC hE hV2 hB,
    recvIteration_build env s r st.session w hE hV2, hB]
  refine ⟨by simp [sendCalls, hsc], rfl, hver, rfl, hver.symm, rfl, ?_, ?_,
    fun x i hi => step_names_frame env s x i hi⟩
  · simp only [streamSend_eq]
    cases (env.send resp w2.ext).1 <;> rfl
  · simp only [streamSend_eq]
    cases (env.send resp w2.ext).1 <;> rfl

/-- C4, an instance: the first request of a stream, for a name the delegate serves, with a
clock that advances. -/
theorem run_iteration_alone_sends_witness :
    (sendCalls (run envTicking (New "certs.yourdomain.com" 20000000000)
        (Stream.init, ⟨0, []⟩)
        (.recv (.ok (DiscoveryRequest.mk "" ["a.example.com"] secretTypeURL "" none))
          :: List.replicate (["a.example.com"].length + 6) .loop)).2.trace).length = 1
    ∧ (run envTicking (New "certs.yourdomain.com" 20000000000) (Stream.init, ⟨0, []⟩)
        (.recv (.ok (DiscoveryRequest.mk "" ["a.example.com"] secretTypeURL "" none))
          :: List.replicate (["a.example.com"].length + 6) .loop)).1.session
      = ⟨["a.example.com"], "2020-01-01T00:00:00Z"⟩ :=
  have h := run_iteration_alone_sends envTicking (New "certs.yourdomain.com" 20000000000)
    (DiscoveryRequest.mk "" ["a.example.com"] secretTypeURL "" none) Stream.init ⟨0, []⟩
    _ _ rfl rfl rfl (.inl rfl) rfl
  ⟨congrArg List.length h.1, rfl⟩

theorem makeSecretBody_trace {W : Type} (env : Env W) (s : EnvoySDS) (rs : String)
    (acc : List Any) (w : World W) :
    (makeSecretBody env s rs acc w).2.trace = callFor s rs :: w.trace := by
  have ht := GetTLSCertificate_trace env s rs w
  simp only [makeSecretBody]
  rcases hg : GetTLSCertificate env s rs w with ⟨r, w1⟩
  rw [hg] at ht
  cases r with
  | panic => exact ht
  | error err => exact ht
  | ok tls =>
    simp only []
    cases env.protoMarshal ⟨rs, tls⟩ <;> exact ht

/-- One step of a task keeps the versions in use among the results of `newVersion`, for the
goroutine that takes it and for one that stands at `t2`. -/
theorem taskStep_allocated {W : Type} (env : Env W) (s : EnvoySDS) (names : List String)
    (ver : String) (t : Task) (w : World W)
    (hv : ver = "" ∨ .now ver ∈ w.trace)
    (hs : ∀ resp o, .send resp o ∈ w.trace → .now resp.VersionInfo ∈ w.trace)
    (ht : t.allocated ver w.trace) :
    ((taskStep env s names ver t w).2.1 = "" ∨
        .now (taskStep env s names ver t w).2.1 ∈ (taskStep env s names ver t w).2.2.trace)
    ∧ (∀ resp o, .send resp o ∈ (taskStep env s names ver t w).2.2.trace →
        .now resp.VersionInfo ∈ (taskStep env s names ver t w).2.2.trace)
    ∧ (∀ t1, (taskStep env s names ver t w).1 = .goto t1 →
        t1.allocated (taskStep env s names ver t w).2.1 (taskStep env s names ver t w).2.2.trace)
    ∧ ((taskStep env s names ver t w).1 = .panic →
        t.allocated (taskStep env s names ver t w).2.1 (taskStep env s names ver t w).2.2.trace)
    ∧ (∀ t2 : Task, t2.allocated ver w.trace →
        t2.allocated (taskStep env s names ver t w).2.1
          (taskStep env s names ver t w).2.2.trace) := by
  have mono : ∀ (e : Event) (t2 : Task), t2.allocated ver w.trace →
      t2.allocated ver (e :: w.trace) := by
    intro e t2 h2
    cases t2 <;> simp_all [Task.allocated]
  cases t with
  | alloc =>
    simp only [taskStep, newVersion]
    refine ⟨?_, ?_, ?_, ?_, ?_⟩
    · rcases hv with h | h
      · exact .inl h
      · exact .inr (List.mem_cons_of_mem _ h)
    · intro resp o hm
      rcases List.mem_cons.1 hm with h | h
      · cases h
      · exact List.mem_cons_of_mem _ (hs resp o h)
    · intro t1 h1
      cases h1
      simp [Task.allocated]
    · intro h; cases h
    · intro t2 h2
      exact mono _ t2 h2
  | store v =>
    simp only [taskStep]
    simp only [Task.allocated] at ht
    refine ⟨.inr ht, hs, ?_, ?_, ?_⟩
    · intro t1 h1
      cases h1
      exact ht
    · intro h; cases h
    · intro t2 h2
      cases t2 <;> simp_all [Task.allocated]
  | load =>
    simp only [taskStep]
    simp only [Task.allocated] at ht
    refine ⟨hv, hs, ?_, ?_, fun t2 h2 => h2⟩
    · intro t1 h1
      cases h1
      exact ht
    · intro h; cases h
  | build v rest acc =>
    simp only [Task.allocated] at ht
    cases rest with
    | nil =>
      simp only [taskStep]
      refine ⟨hv, hs, ?_, ?_, fun t2 h2 => h2⟩
      · intro t1 h1
        cases h1
        exact ht
      · intro h; cases h
    | cons rs rest =>
      have htr := makeSecretBody_trace env s rs acc w
      simp only [taskStep]
      rcases hb : makeSecretBody env s rs acc w with ⟨r, w1⟩
      rw [hb] at htr
      simp only [] at htr
      have hs1 : ∀ resp o, .send resp o ∈ w1.trace → .now resp.VersionInfo ∈ w1.trace := by
        intro resp o hm
        rw [htr] at hm ⊢
        rcases List.mem_cons.1 hm with h | h
        · cases h
        · exact List.mem_cons_of_mem _ (hs resp o h)
      have hv1 : ver = "" ∨ .now ver ∈ w1.trace := by
        rcases hv with h | h
        · exact .inl h
        · exact .inr (by rw [htr]; exact List.mem_cons_of_mem _ h)
      have ht1 : Event.now v ∈ w1.trace := by rw [htr]; exact List.mem_cons_of_mem _ ht
      have hm1 : ∀ t2 : Task, t2.allocated ver w.trace → t2.allocated ver w1.trace := by
        intro t2 h2
        rw [htr]
        exact mono _ t2 h2
      cases r with
      | panic =>
        refine ⟨hv1, hs1, ?_, fun _ => ht1, hm1⟩
        intro t1 h1
        cases h1
      | error e =>
        refine ⟨hv1, hs1, ?_, ?_, hm1⟩
        · intro t1 h1
          cases h1
        · intro h
          cases h
      | ok acc1 =>
        refine ⟨hv1, hs1, ?_, ?_, hm1⟩
        · intro t1 h1
          cases h1
          exact ht1
        · intro h
          cases h
  | send secret =>
    simp only [Task.allocated] at ht
    simp only [taskStep, streamSend_eq]
    refine ⟨?_, ?_, ?_, ?_, ?_⟩
    · rcases hv with h | h
      · exact .inl h
      · exact .inr (List.mem_cons_of_mem _ h)
    rotate_left
    · intro t1 h1
      cases h1
    · intro h
      cases h
    rotate_left
    · intro resp o hm
      rcases List.mem_cons.1 hm with h | h
      · cases h
        exact List.mem_cons_of_mem _ ht
      · exact List.mem_cons_of_mem _ (hs resp o h)
    · intro t2 h2
      exact mono _ t2 h2

theorem step_allocated {W : Type} (env : Env W) (s : EnvoySDS) (st : Stream × World W)
    (i : Input) (h : Stream.allocated st) : Stream.allocated (step env s st i) := by
  obtain ⟨⟨ss, pc, wk, cr⟩, w⟩ := st
  obtain ⟨hv, hs, hl, hw⟩ := h
  simp only [] at hv hs hl hw
  cases cr with
  | true => cases i <;> exact ⟨hv, hs, hl, hw⟩
  | false =>
    cases i with
    | recv rcv =>
      cases pc with
      | recv =>
        cases rcv with
        | error err =>
          exact ⟨hv, hs, (fun t ht => by cases ht), hw⟩
        | ok r =>
          cases hE : r.ErrorDetail with
          | some d => simpa [step, hE] using (⟨hv, hs, hl, hw⟩ : Stream.allocated _)
          | none =>
            simp only [step, hE, Option.isSome_none, Bool.false_eq_true, if_false]
            exact ⟨hv, hs, (fun t ht => by cases ht), hw⟩
      | compare vi => exact ⟨hv, hs, hl, hw⟩
      | task t => exact ⟨hv, hs, hl, hw⟩
      | returned err => exact ⟨hv, hs, hl, hw⟩
    | loop =>
      cases pc with
      | recv => exact ⟨hv, hs, hl, hw⟩
      | returned err => exact ⟨hv, hs, hl, hw⟩
      | compare vi =>
        simp only [step, Bool.false_eq_true, if_false]
        split
        · exact ⟨hv, hs, (fun t ht => by cases ht), hw⟩
        · refine ⟨hv, hs, fun t ht => ?_, hw⟩
          cases ht
          trivial
      | task t =>
        obtain ⟨k1, k2, k3, k4, k5⟩ :=
          taskStep_allocated env s ss.names ss.version t w hv hs (hl t rfl)
        simp only [step, Bool.false_eq_true, if_false]
        rcases hq : taskStep env s ss.names ss.version t w with ⟨next, v, w1⟩
        rw [hq] at k1 k2 k3 k4 k5
        simp only [] at k1 k2 k3 k4 k5
        have hw1 : ∀ names t2, wk = .task names t2 → t2.allocated v w1.trace :=
          fun names t2 h2 => k5 t2 (hw names t2 h2)
        cases next with
        | goto t1 =>
          refine ⟨k1, k2, fun t ht => ?_, hw1⟩
          cases ht
          exact k3 t1 rfl
        | failed => exact ⟨k1, k2, (fun t ht => by cases ht), hw1⟩
        | sent o =>
          cases o with
          | none => exact ⟨k1, k2, (fun t ht => by cases ht), hw1⟩
          | some err => exact ⟨k1, k2, (fun t ht => by cases ht), hw1⟩
        | panic =>
          refine ⟨k1, k2, fun t2 ht => ?_, hw1⟩
          cases ht
          exact k4 rfl
    | reset names =>
      cases wk with
      | select =>
        refine ⟨hv, hs, hl, fun names t ht => ?_⟩
        cases ht
        trivial
      | task n t => exact ⟨hv, hs, hl, hw⟩
      | exited => exact ⟨hv, hs, hl, hw⟩
    | worker =>
      cases wk with
      | select => exact ⟨hv, hs, hl, hw⟩
      | exited => exact ⟨hv, hs, hl, hw⟩
      | task names t =>
        obtain ⟨k1, k2, k3, k4, k5⟩ :=
          taskStep_allocated env s names ss.version t w hv hs (hw names t rfl)
        simp only [step, Bool.false_eq_true, if_false]
        rcases hq : taskStep env s names ss.version t w with ⟨next, v, w1⟩
        rw [hq] at k1 k2 k3 k4 k5
        simp only [] at k1 k2 k3 k4 k5
        have hl1 : ∀ t2, pc = .task t2 → t2.allocated v w1.trace :=
          fun t2 h2 => k5 t2 (hl t2 h2)
        cases next with
        | goto t1 =>
          refine ⟨k1, k2, hl1, fun n t ht => ?_⟩
          cases ht
          exact k3 t1 rfl
        | failed => exact ⟨k1, k2, hl1, (fun n t ht => by cases ht)⟩
        | sent o =>
          cases o with
          | none => exact ⟨k1, k2, hl1, (fun n t ht => by cases ht)⟩
          | some err => exact ⟨k1, k2, hl1, (fun n t ht => by cases ht)⟩
        | panic =>
          refine ⟨k1, k2, hl1, fun n t2 ht => ?_⟩
          cases ht
          exact k4 rfl
    | done =>
      cases wk with
      | select => exact ⟨hv, hs, hl, (fun names t ht => by cases ht)⟩
      | task n t => exact ⟨hv, hs, hl, hw⟩
      | exited => exact ⟨hv, hs, hl, hw⟩

theorem run_allocated {W : Type} (env : Env W) (s : EnvoySDS) (inputs : List Input)
    (st : Stream × World W) (h : Stream.allocated st) :
    Stream.allocated (run env s st inputs) := by
  induction inputs generalizing st with
  | nil => exact h
  | cons i rest ih => exact ih (step env s st i) (step_allocated env s st i h)

theorem Task.inStep_final (ver : String) (tr : List Event) (t : Task)
    (h : t.inStep ver tr) (hu : unsentVersion tr = false) : ver = lastSentVersion tr := by
  cases t with
  | alloc => exact h.2 hu
  | store v => rw [h.2] at hu; cases hu
  | load => rw [h.2] at hu; cases hu
  | build v rest acc => rw [h.2.2] at hu; cases hu
  | send secret => rw [h.2.2] at hu; cases hu

/-- One step of the only iteration under way. -/
theorem taskStep_inStep {W : Type} (env : Env W) (s : EnvoySDS) (names : List String)
    (ver : String) (t : Task) (w : World W) (h : t.inStep ver w.trace) :
    match (taskStep env s names ver t w).1 with
    | .goto t1 =>
      t1.inStep (taskStep env s names ver t w).2.1 (taskStep env s names ver t w).2.2.trace
    | .panic =>
      t.inStep (taskStep env s names ver t w).2.1 (taskStep env s names ver t w).2.2.trace
    | _ =>
      settled (taskStep env s names ver t w).2.1 (taskStep env s names ver t w).2.2.trace := by
  cases t with
  | alloc =>
    simp only [taskStep, newVersion, Task.inStep]
    exact ⟨rfl, rfl⟩
  | store v =>
    simp only [Task.inStep] at h
    simp only [taskStep, Task.inStep]
    exact ⟨h.1.symm, h.2⟩
  | load =>
    simp only [Task.inStep] at h
    simp only [taskStep]
    exact ⟨rfl, h.1, h.2⟩
  | build v rest acc =>
    simp only [Task.inStep] at h
    cases rest with
    | nil =>
      simp only [taskStep, Task.inStep]
      exact h
    | cons rs rest =>
      have htr := makeSecretBody_trace env s rs acc w
      simp only [taskStep]
      rcases hb : makeSecretBody env s rs acc w with ⟨r, w1⟩
      rw [hb] at htr
      simp only [] at htr
      have ha : lastAllocated w1.trace = lastAllocated w.trace := by
        rw [htr]; rfl
      have hu : unsentVersion w1.trace = unsentVersion w.trace := by
        rw [htr]; rfl
      cases r with
      | panic =>
        simp only [Task.inStep]
        exact ⟨h.1, by rw [ha]; exact h.2.1, by rw [hu]; exact h.2.2⟩
      | error e =>
        simp only [settled]
        refine ⟨by rw [ha]; exact h.2.1, fun hc => ?_⟩
        rw [hu, h.2.2] at hc
        cases hc
      | ok acc1 =>
        simp only [Task.inStep]
        exact ⟨h.1, by rw [ha]; exact h.2.1, by rw [hu]; exact h.2.2⟩
  | send secret =>
    simp only [Task.inStep] at h
    simp only [taskStep, streamSend_eq, settled]
    cases (env.send secret w.ext).1 with
    | none =>
      refine ⟨h.2.1, fun _ => ?_⟩
      exact h.1.symm
    | some e =>
      refine ⟨h.2.1, fun hc => ?_⟩
      have : unsentVersion (Event.send secret (some e) :: w.trace) = unsentVersion w.trace :=
        rfl
      rw [this, h.2.2] at hc
      cases hc

theorem step_sequential {W : Type} (env : Env W) (s : EnvoySDS) (st : Stream × World W)
    (i : Input) (h : Stream.sequential st) (hx : st.1.exclusive = true) :
    Stream.sequential (step env s st i) := by
  obtain ⟨⟨ss, pc, wk, cr⟩, w⟩ := st
  obtain ⟨h1, h2⟩ := h
  simp only [] at h1 h2
  simp only [Stream.exclusive, Bool.not_eq_true', Bool.and_eq_false_iff] at hx
  cases cr with
  | true => cases i <;> exact ⟨h1, h2⟩
  | false =>
    cases i with
    | recv rcv =>
      cases pc with
      | recv =>
        cases rcv with
        | error err => exact ⟨h1, h2⟩
        | ok r =>
          cases hE : r.ErrorDetail with
          | some d => simpa [step, hE] using (⟨h1, h2⟩ : Stream.sequential _)
          | none =>
            simp only [step, hE, Option.isSome_none, Bool.false_eq_true, if_false]
            exact ⟨h1, (fun hb => by cases hb)⟩
      | compare vi => exact ⟨h1, h2⟩
      | task t => exact ⟨h1, h2⟩
      | returned err => exact ⟨h1, h2⟩
    | loop =>
      cases pc with
      | recv => exact ⟨h1, h2⟩
      | returned err => exact ⟨h1, h2⟩
      | compare vi =>
        have hwk : wk.busy = false := by
          rcases hx with hx | hx
          · cases hx
          · exact hx
        have hset : settled ss.version w.trace := h1 hwk
        have hwinv : wk.inv ss.version w.trace := by
          cases wk with
          | select => exact hset
          | exited => exact hset
          | task n t => cases hwk
        simp only [step, Bool.false_eq_true, if_false]
        split
        · exact ⟨fun _ => hset, fun _ => hwinv⟩
        · exact ⟨fun _ => hset, (fun hb => by cases hb)⟩
      | task t =>
        have hwk : wk.busy = false := by
          rcases hx with hx | hx
          · cases hx
          · exact hx
        have key := taskStep_inStep env s ss.names ss.version t w (h1 hwk)
        simp only [step, Bool.false_eq_true, if_false]
        rcases hq : taskStep env s ss.names ss.version t w with ⟨next, v, w1⟩
        rw [hq] at key
        simp only [] at key
        have hwset : settled v w1.trace → wk.inv v w1.trace := by
          intro hset
          cases wk with
          | select => exact hset
          | exited => exact hset
          | task n t => cases hwk
        cases next with
        | goto t1 => exact ⟨fun _ => key, (fun hb => by cases hb)⟩
        | failed => exact ⟨fun _ => key, fun _ => hwset key⟩
        | sent o =>
          cases o with
          | none => exact ⟨fun _ => key, fun _ => hwset key⟩
          | some err => exact ⟨fun _ => key, fun _ => hwset key⟩
        | panic => exact ⟨fun _ => key, (fun hb => by cases hb)⟩
    | reset names =>
      cases wk with
      | select =>
        simp only [step, Bool.false_eq_true, if_false]
        exact ⟨(fun hb => by cases hb), h2⟩
      | task n t => exact ⟨h1, h2⟩
      | exited => exact ⟨h1, h2⟩
    | worker =>
      cases wk with
      | select => exact ⟨h1, h2⟩
      | exited => exact ⟨h1, h2⟩
      | task names t =>
        have hlp : pc.busy = false := by
          rcases hx with hx | hx
          · exact hx
          · cases hx
        have key := taskStep_inStep env s names ss.version t w (h2 hlp)
        simp only [step, Bool.false_eq_true, if_false]
        rcases hq : taskStep env s names ss.version t w with ⟨next, v, w1⟩
        rw [hq] at key
        simp only [] at key
        have hlset : settled v w1.trace → pc.inv v w1.trace := by
          intro hset
          cases pc with
          | recv => exact hset
          | returned err => exact hset
          | compare vi => cases hlp
          | task t => cases hlp
        cases next with
        | goto t1 => exact ⟨(fun hb => by cases hb), fun _ => key⟩
        | failed => exact ⟨fun _ => hlset key, fun _ => key⟩
        | sent o =>
          cases o with
          | none => exact ⟨fun _ => hlset key, fun _ => key⟩
          | some err => exact ⟨fun _ => hlset key, fun _ => key⟩
        | panic => exact ⟨(fun hb => by cases hb), fun _ => key⟩
    | done =>
      cases wk with
      | select =>
        simp only [step, Bool.false_eq_true, if_false]
        exact ⟨h1, h2⟩
      | task n t => exact ⟨h1, h2⟩
      | exited => exact ⟨h1, h2⟩

theorem nonOverlapping_head {W : Type} (env : Env W) (s : EnvoySDS) (st : Stream × World W)
    (inputs : List Input) (h : nonOverlapping env s st inputs = true) :
    st.1.exclusive = true := by
  cases inputs with
  | nil => exact h
  | cons i rest =>
    simp only [nonOverlapping, Bool.and_eq_true] at h
    exact h.1

theorem run_sequential {W : Type} (env : Env W) (s : EnvoySDS) (inputs : List Input)
    (st : Stream × World W) (h : Stream.sequential st)
    (hn : nonOverlapping env s st inputs = true) :
    Stream.sequential (run env s st inputs) ∧ (run env s st inputs).1.exclusive = true := by
  induction inputs generalizing st with
  | nil => exact ⟨h, hn⟩
  | cons i rest ih =>
    simp only [nonOverlapping, Bool.and_eq_true] at hn
    exact ih (step env s st i) (step_sequential env s st i h hn.1) hn.2

theorem sequential_final {W : Type} (st : Stream × World W) (h : Stream.sequential st)
    (hx : st.1.exclusive = true) (hu : unsentVersion st.2.trace = false) :
    st.1.session.version = lastSentVersion st.2.trace := by
  obtain ⟨⟨ss, pc, wk, cr⟩, w⟩ := st
  obtain ⟨h1, h2⟩ := h
  simp only [] at h1 h2 hu
  simp only [Stream.exclusive, Bool.not_eq_true', Bool.and_eq_false_iff] at hx
  rcases hx with hx | hx
  · have hw := h2 hx
    cases wk with
    | select => exact hw.2 hu
    | exited => exact hw.2 hu
    | task n t => exact Task.inStep_final _ _ t hw hu
  · have hl := h1 hx
    cases pc with
    | recv => exact hl.2 hu
    | returned err => exact hl.2 hu
    | compare vi => exact hl.2 hu
    | task t => exact Task.inStep_final _ _ t hl hu

/-- C7, counterexample. The first request of a stream names a host the delegate refuses:
the build fails and nothing is sent, the receive loop is back in `stream.Recv()`, yet the
session's version is the allocated one and not the empty string. No worker step is
involved. -/
theorem run_version_without_send :
    (run envTicking (New "certs.yourdomain.com" 20000000000) (Stream.init, ⟨0, []⟩)
        [.recv (.ok (DiscoveryRequest.mk "" ["b.example.com"] secretTypeURL "" none)),
         .loop, .loop, .loop, .loop, .loop]).1
      = { session := { names := ["b.example.com"], version := "2020-01-01T00:00:00Z" }
          loop := .recv, worker := .select, crashed := false }
    ∧ sendCalls (run envTicking (New "certs.yourdomain.com" 20000000000)
        (Stream.init, ⟨0, []⟩)
        [.recv (.ok (DiscoveryRequest.mk "" ["b.example.com"] secretTypeURL "" none)),
         .loop, .loop, .loop, .loop, .loop]).2.trace = []
    ∧ lastSentVersion (run envTicking (New "certs.yourdomain.com" 20000000000)
        (Stream.init, ⟨0, []⟩)
        [.recv (.ok (DiscoveryRequest.mk "" ["b.example.com"] secretTypeURL "" none)),
         .loop, .loop, .loop, .loop, .loop]).2.trace = ""
    ∧ (run envTicking (New "certs.yourdomain.com" 20000000000) (Stream.init, ⟨0, []⟩)
        [.recv (.ok (DiscoveryRequest.mk "" ["b.example.com"] secretTypeURL "" none)),
         .loop, .loop, .loop, .loop, .loop]).1.session.version
      ≠ lastSentVersion (run envTicking (New "certs.yourdomain.com" 20000000000)
        (Stream.init, ⟨0, []⟩)
        [.recv (.ok (DiscoveryRequest.mk "" ["b.example.com"] secretTypeURL "" none)),
         .loop, .loop, .loop, .loop, .loop]).2.trace := by
  refine ⟨rfl, rfl, rfl, ?_⟩
  decide

/-- C7, amended. After any sequence of steps of the receive loop and the worker on a fresh
stream, in any order: the session's version is the empty string or an earlier result of
`newVersion`, and so is the version of every response handed to `stream.Send`. When no
iteration of one goroutine has begun while an iteration of the other was under way, the
session's version is the version of the most recent response sent successfully (the empty
string if there is none) whenever the most recent result of `newVersion` has been followed
by a successful send. -/
theorem run_version_invariant {W : Type} (env : Env W) (s : EnvoySDS) (x : W)
    (inputs : List Input) :
    ((run env s (Stream.init, ⟨x, []⟩) inputs).1.session.version = ""
      ∨ .now (run env s (Stream.init, ⟨x, []⟩) inputs).1.session.version
          ∈ (run env s (Stream.init, ⟨x, []⟩) inputs).2.trace)
    ∧ (∀ resp o, .send resp o ∈ (run env s (Stream.init, ⟨x, []⟩) inputs).2.trace →
        .now resp.VersionInfo ∈ (run env s (Stream.init, ⟨x, []⟩) inputs).2.trace)
    ∧ (nonOverlapping env s (Stream.init, ⟨x, []⟩) inputs = true →
        unsentVersion (run env s (Stream.init, ⟨x, []⟩) inputs).2.trace = false →
        (run env s (Stream.init, ⟨x, []⟩) inputs).1.session.version
          = lastSentVersion (run env s (Stream.init, ⟨x, []⟩) inputs).2.trace) := by
  have ha : Stream.allocated ((Stream.init, ⟨x, []⟩) : Stream × World W) :=
    ⟨.inl rfl, (fun resp o hm => by cases hm), (fun t ht => by cases ht),
      (fun names t ht => by cases ht)⟩
  have hq : Stream.sequential ((Stream.init, ⟨x, []⟩) : Stream × World W) :=
    ⟨fun _ => ⟨rfl, fun _ => rfl⟩, fun _ => ⟨rfl, fun _ => rfl⟩⟩
  obtain ⟨k1, k2, -, -⟩ := run_allocated env s inputs _ ha
  refine ⟨k1, k2, fun hn hu => ?_⟩
  obtain ⟨j1, j2⟩ := run_sequential env s inputs _ hq hn
  exact sequential_final _ j1 j2 hu

/-- C7, an instance, with a clock that advances: a served request, its acknowledgement, and
then a refresh that the worker handles from start to end. The session's version is the
worker's, which is that of the last response sent. -/
theorem run_version_invariant_witness :
    nonOverlapping envTicking (New "certs.yourdomain.com" 20000000000)
        (Stream.init, ⟨0, []⟩)
        [.recv (.ok (DiscoveryRequest.mk "" ["a.example.com"] secretTypeURL "" none)),
         .loop, .loop, .loop, .loop, .loop, .loop, .loop,
         .recv (.ok (DiscoveryRequest.mk "2020-01-01T00:00:00Z" ["a.example.com"]
            secretTypeURL "" none)),
         .loop,
         .reset ["a.example.com"], .worker, .worker, .worker, .worker, .worker, .worker]
      = true
    ∧ (sendCalls (run envTicking (New "certs.yourdomain.com" 20000000000)
        (Stream.init, ⟨0, []⟩)
        [.recv (.ok (DiscoveryRequest.mk "" ["a.example.com"] secretTypeURL "" none)),
         .loop, .loop, .loop, .loop, .loop, .loop, .loop,
         .recv (.ok (DiscoveryRequest.mk "2020-01-01T00:00:00Z" ["a.example.com"]
            secretTypeURL "" none)),
         .loop,
         .reset ["a.example.com"], .worker, .worker, .worker, .worker, .worker, .worker]
        ).2.trace).map DiscoveryResponse.VersionInfo
      = ["2020-01-01T00:00:01Z", "2020-01-01T00:00:00Z"]
    ∧ (run envTicking (New "certs.yourdomain.com" 20000000000) (Stream.init, ⟨0, []⟩)
        [.recv (.ok (DiscoveryRequest.mk "" ["a.example.com"] secretTypeURL "" none)),
         .loop, .loop, .loop, .loop, .loop, .loop, .loop,
         .recv (.ok (DiscoveryRequest.mk "2020-01-01T00:00:00Z" ["a.example.com"]
            secretTypeURL "" none)),
         .loop,
         .reset ["a.example.com"], .worker, .worker, .worker, .worker, .worker, .worker]
        ).1.session.version
      = lastSentVersion (run envTicking (New "certs.yourdomain.com" 20000000000)
        (Stream.init, ⟨0, []⟩)
        [.recv (.ok (DiscoveryRequest.mk "" ["a.example.com"] secretTypeURL "" none)),
         .loop, .loop, .loop, .loop, .loop, .loop, .loop,
         .recv (.ok (DiscoveryRequest.mk "2020-01-01T00:00:00Z" ["a.example.com"]
            secretTypeURL "" none)),
         .loop,
         .reset ["a.example.com"], .worker, .worker, .worker, .worker, .worker, .worker]
        ).2.trace :=
  ⟨rfl, rfl, (run_version_invariant envTicking (New "certs.yourdomain.com" 20000000000) 0
    [.recv (.ok (DiscoveryRequest.mk "" ["a.example.com"] secretTypeURL "" none)),
     .loop, .loop, .loop, .loop, .loop, .loop, .loop,
     .recv (.ok (DiscoveryRequest.mk "2020-01-01T00:00:00Z" ["a.example.com"]
        secretTypeURL "" none)),
     .loop,
     .reset ["a.example.com"], .worker, .worker, .worker, .worker, .worker, .worker]).2.2
    rfl rfl⟩

end Homeproxy
